import Mathlib

/-!
Verification of the agent-loop core of `asi_scaffold.py`: JSON values as the
program's data (Python dicts produced by `json.loads` and consumed by
`json.dump`), a character-exact model of `json.dumps`/`json.loads` (null,
bool, int, float — including `NaN`/`Infinity` — str, list, dict, with the
scanner's exact number grammar and failure set), and
the agent state machine (`Agent.run`, `_construct_prompt`, `_load_state`,
`_save_state`, `_get_tools_description`, the tool table and dispatch).
-/

namespace AsiScaffold

/-- A float as `json.loads` produces one: the matched components of the
scanner's number regex when a fraction or an exponent group is present
(`dec` with a fraction, `sci` with an exponent only), or one of the accepted
constants `NaN`, `Infinity`, `-Infinity`.  The components determine the
Python float; the exponent is kept as sign and magnitude (a `+` or leading
exponent zeros do not change the value and are not kept, just as the float
they denote does not remember them). -/
inductive JFloat where
  | dec (neg : Bool) (ip : Nat) (fd : Fin 10) (fds : List (Fin 10))
      (exp : Option (Bool × Nat)) : JFloat
  | sci (neg : Bool) (ip : Nat) (eneg : Bool) (emag : Nat) : JFloat
  | nan : JFloat
  | inf (neg : Bool) : JFloat
  deriving DecidableEq

/-- A Python/JSON value as the program handles it: the result of `json.loads`
and the argument of `json.dump`.  Integer literals give `num`,
fraction/exponent literals and the `NaN`/`Infinity` constants give `fnum`. -/
inductive Json where
  | null : Json
  | bool (b : Bool) : Json
  | num (n : Int) : Json
  | fnum (f : JFloat) : Json
  | str (s : String) : Json
  | arr (elems : List Json) : Json
  | obj (entries : List (String × Json)) : Json

mutual

/-- Boolean equality on `Json` (decidable equality, spelled out because the
type nests lists). -/
def beqJson : Json → Json → Bool
  | .null, .null => true
  | .bool a, .bool b => a == b
  | .num a, .num b => a == b
  | .fnum a, .fnum b => a == b
  | .str a, .str b => a == b
  | .arr xs, .arr ys => beqJsonList xs ys
  | .obj es, .obj fs => beqJsonObj es fs
  | _, _ => false
termination_by structural j => j

/-- Boolean equality on lists of `Json`. -/
def beqJsonList : List Json → List Json → Bool
  | [], [] => true
  | x :: xs, y :: ys => beqJson x y && beqJsonList xs ys
  | _, _ => false
termination_by structural l => l

/-- Boolean equality on `Json` object entry lists. -/
def beqJsonObj : List (String × Json) → List (String × Json) → Bool
  | [], [] => true
  | (k, v) :: es, (k2, v2) :: fs => k == k2 && beqJson v v2 && beqJsonObj es fs
  | _, _ => false
termination_by structural l => l

end

mutual

theorem beqJson_iff : ∀ a b : Json, beqJson a b = true ↔ a = b
  | .null, .null => by simp [beqJson]
  | .bool a, .bool b => by simp [beqJson]
  | .num a, .num b => by simp [beqJson]
  | .fnum a, .fnum b => by simp [beqJson]
  | .str a, .str b => by simp [beqJson]
  | .arr xs, .arr ys => by
      simp only [beqJson]
      rw [beqJsonList_iff]
      exact ⟨fun h => by rw [h], fun h => by cases h; rfl⟩
  | .obj es, .obj fs => by
      simp only [beqJson]
      rw [beqJsonObj_iff]
      exact ⟨fun h => by rw [h], fun h => by cases h; rfl⟩
  | .null, .bool _ | .null, .num _ | .null, .str _ | .null, .arr _ | .null, .obj _
  | .bool _, .null | .bool _, .num _ | .bool _, .str _ | .bool _, .arr _ | .bool _, .obj _
  | .num _, .null | .num _, .bool _ | .num _, .str _ | .num _, .arr _ | .num _, .obj _
  | .str _, .null | .str _, .bool _ | .str _, .num _ | .str _, .arr _ | .str _, .obj _
  | .arr _, .null | .arr _, .bool _ | .arr _, .num _ | .arr _, .str _ | .arr _, .obj _
  | .obj _, .null | .obj _, .bool _ | .obj _, .num _ | .obj _, .str _ | .obj _, .arr _
  | .fnum _, .null | .fnum _, .bool _ | .fnum _, .num _ | .fnum _, .str _
  | .fnum _, .arr _ | .fnum _, .obj _
  | .null, .fnum _ | .bool _, .fnum _ | .num _, .fnum _ | .str _, .fnum _
  | .arr _, .fnum _ | .obj _, .fnum _ =>
      by simp [beqJson]
termination_by structural a => a

theorem beqJsonList_iff : ∀ a b : List Json, beqJsonList a b = true ↔ a = b
  | [], [] => by simp [beqJsonList]
  | x :: xs, y :: ys => by
      simp only [beqJsonList, Bool.and_eq_true]
      rw [beqJson_iff, beqJsonList_iff]
      exact ⟨fun h => by rw [h.1, h.2], fun h => by cases h; exact ⟨rfl, rfl⟩⟩
  | [], _ :: _ => by simp [beqJsonList]
  | _ :: _, [] => by simp [beqJsonList]
termination_by structural a => a

theorem beqJsonObj_iff : ∀ a b : List (String × Json), beqJsonObj a b = true ↔ a = b
  | [], [] => by simp [beqJsonObj]
  | (k, v) :: es, (k2, v2) :: fs => by
      simp only [beqJsonObj, Bool.and_eq_true]
      rw [beqJson_iff, beqJsonObj_iff]
      constructor
      · rintro ⟨⟨h1, rfl⟩, rfl⟩
        simp_all
      · intro h; cases h; simp
  | [], _ :: _ => by simp [beqJsonObj]
  | _ :: _, [] => by simp [beqJsonObj]
termination_by structural a => a

end

instance : DecidableEq Json := fun a b =>
  decidable_of_iff (beqJson a b = true) (beqJson_iff a b)

/-- JSON whitespace, as `json.loads` skips it between tokens. -/
def isWsChar (c : Char) : Bool :=
  c = ' ' || c = '\t' || c = '\n' || c = '\r'

/-- Lower-case hex digit, as Python's `'\\u%04x' % n` renders one. -/
def hexDigitChar (n : Nat) : Char :=
  if n < 10 then Char.ofNat (48 + n) else Char.ofNat (87 + n)

/-- Four lower-case hex digits of `n % 65536`. -/
def hex4 (n : Nat) : List Char :=
  [hexDigitChar (n / 4096 % 16), hexDigitChar (n / 256 % 16),
   hexDigitChar (n / 16 % 16), hexDigitChar (n % 16)]

/-- One character of a string as `json.dumps` (default `ensure_ascii=True`)
escapes it: the short escapes of `ESCAPE_DCT`, printable ASCII verbatim,
everything else as `\uXXXX` (a surrogate pair above U+FFFF). -/
def escapeChar (c : Char) : List Char :=
  if c = '"' then ['\\', '"']
  else if c = '\\' then ['\\', '\\']
  else if c = '\n' then ['\\', 'n']
  else if c = '\r' then ['\\', 'r']
  else if c = '\t' then ['\\', 't']
  else if c.toNat = 8 then ['\\', 'b']
  else if c.toNat = 12 then ['\\', 'f']
  else if 32 ≤ c.toNat ∧ c.toNat ≤ 126 then [c]
  else if c.toNat < 65536 then '\\' :: 'u' :: hex4 c.toNat
  else
    let m := c.toNat - 65536
    ('\\' :: 'u' :: hex4 (55296 + m / 1024)) ++ ('\\' :: 'u' :: hex4 (56320 + m % 1024))

/-- The body of a JSON string literal for `s` (no surrounding quotes). -/
def escapeString (s : String) : List Char :=
  s.data.flatMap escapeChar

/-- Decimal digit character. -/
def digitChar (n : Nat) : Char := Char.ofNat (48 + n)

/-- Decimal digits, fuelled so that the definition is structural (the fuel
is irrelevant once it exceeds the number, see `natDigitsAux_fuel`). -/
def natDigitsAux : Nat → Nat → List Char
  | 0, _ => []
  | fuel + 1, n =>
      if n < 10 then [digitChar n]
      else natDigitsAux fuel (n / 10) ++ [digitChar (n % 10)]

/-- Decimal digits of a natural number, most significant first. -/
def natDigits (n : Nat) : List Char :=
  natDigitsAux (n + 1) n

/-- Decimal rendering of an integer, as `json.dumps` prints an `int`. -/
def intDigits (n : Int) : List Char :=
  if n < 0 then '-' :: natDigits n.natAbs else natDigits n.toNat

/-- The exponent group of a rendered float literal. -/
def expChars : Option (Bool × Nat) → List Char
  | none => []
  | some (eneg, emag) => 'e' :: ((if eneg then ['-'] else []) ++ natDigits emag)

/-- A float re-rendered from its parsed components, a valid literal denoting
the same double.  (CPython prints `repr` of the evaluated double instead,
e.g. `1e+16` for the value parsed from `1e16`; no property below depends on
the rendered text of a float, only on its round trip.) -/
def floatChars : JFloat → List Char
  | .dec neg ip fd fds e =>
      (if neg then ['-'] else []) ++ (natDigits ip ++
        ('.' :: ((digitChar fd.val :: fds.map fun d => digitChar d.val) ++ expChars e)))
  | .sci neg ip eneg emag =>
      (if neg then ['-'] else []) ++ (natDigits ip ++
        ('e' :: ((if eneg then ['-'] else []) ++ natDigits emag)))
  | .nan => ['N', 'a', 'N']
  | .inf neg => (if neg then ['-'] else []) ++ ['I', 'n', 'f', 'i', 'n', 'i', 't', 'y']

/-- The newline-plus-indentation `json.dumps` emits after an opening bracket
and before a closing one when `indent` is given; nothing in compact mode. -/
def nlIndent (indent : Option Nat) (lvl : Nat) : List Char :=
  match indent with
  | none => []
  | some n => '\n' :: List.replicate (n * lvl) ' '

/-- The separator `json.dumps` places between two items: `", "` in compact
mode (the default separators), `","` plus newline and indentation when
`indent` is given. -/
def itemSep (indent : Option Nat) (lvl : Nat) : List Char :=
  match indent with
  | none => [',', ' ']
  | some n => ',' :: '\n' :: List.replicate (n * lvl) ' '

mutual

/-- `json.dumps(v, indent=indent)` at nesting level `lvl`, as characters.
The key separator is `": "` in both modes. -/
def printVal (indent : Option Nat) (lvl : Nat) : Json → List Char
  | .null => ['n', 'u', 'l', 'l']
  | .bool false => ['f', 'a', 'l', 's', 'e']
  | .bool true => ['t', 'r', 'u', 'e']
  | .num n => intDigits n
  | .fnum f => floatChars f
  | .str s => '"' :: escapeString s ++ ['"']
  | .arr [] => ['[', ']']
  | .arr (x :: xs) =>
      '[' :: (nlIndent indent (lvl + 1) ++ printElems indent (lvl + 1) (x :: xs)
        ++ nlIndent indent lvl ++ [']'])
  | .obj [] => ['{', '}']
  | .obj (e :: es) =>
      '{' :: (nlIndent indent (lvl + 1) ++ printEntries indent (lvl + 1) (e :: es)
        ++ nlIndent indent lvl ++ ['}'])
termination_by structural j => j

/-- The comma-separated renderings of the elements of a (nonempty) array. -/
def printElems (indent : Option Nat) (lvl : Nat) : List Json → List Char
  | [] => []
  | [x] => printVal indent lvl x
  | x :: y :: xs =>
      printVal indent lvl x ++ itemSep indent lvl ++ printElems indent lvl (y :: xs)
termination_by structural l => l

/-- The comma-separated `"key": value` renderings of the entries of a
(nonempty) object. -/
def printEntries (indent : Option Nat) (lvl : Nat) : List (String × Json) → List Char
  | [] => []
  | [(k, v)] => '"' :: (escapeString k ++ '"' :: ':' :: ' ' :: printVal indent lvl v)
  | (k, v) :: e :: es =>
      ('"' :: (escapeString k ++ '"' :: ':' :: ' ' :: printVal indent lvl v))
        ++ itemSep indent lvl ++ printEntries indent lvl (e :: es)
termination_by structural l => l

end

/-- `json.dumps(v, indent=indent)` (with `indent=None` the compact default). -/
def dumps (indent : Option Nat) (v : Json) : String :=
  String.mk (printVal indent 0 v)

example : dumps none (.obj [("a", .str "b")]) = "\x7b\"a\": \"b\"\x7d" := rfl

example : dumps (some 2) (.arr [.num 1, .num (-20)]) = "[\n  1,\n  -20\n]" := rfl

example : dumps none (.str "a\nb\\") = "\"a\\nb\\\\\"" := rfl

example : dumps (some 4) (.obj [("k", .arr [])]) = "\x7b\n    \"k\": []\n\x7d" := rfl

/-- Whitespace skipping between JSON tokens, as the `json.loads` scanner. -/
def skipWs : List Char → List Char
  | [] => []
  | c :: cs => if isWsChar c then skipWs cs else c :: cs

/-- Value of one hex digit (`0-9a-fA-F`). -/
def hexVal (c : Char) : Option Nat :=
  if 48 ≤ c.toNat ∧ c.toNat ≤ 57 then some (c.toNat - 48)
  else if 97 ≤ c.toNat ∧ c.toNat ≤ 102 then some (c.toNat - 87)
  else if 65 ≤ c.toNat ∧ c.toNat ≤ 70 then some (c.toNat - 55)
  else none

/-- Exactly four hex digits, as after `\u` in a JSON string. -/
def parseHex4 : List Char → Option (Nat × List Char)
  | a :: b :: c :: d :: cs =>
      match hexVal a, hexVal b, hexVal c, hexVal d with
      | some x, some y, some z, some w => some (((x * 16 + y) * 16 + z) * 16 + w, cs)
      | _, _, _, _ => none
  | _ => none

/-- Decimal digit test. -/
def isDigitChar (c : Char) : Bool := 48 ≤ c.toNat && c.toNat ≤ 57

/-- Maximal run of decimal digits and the remainder. -/
def takeDigits : List Char → (List Char × List Char)
  | [] => ([], [])
  | c :: cs =>
      if isDigitChar c then
        let r := takeDigits cs
        (c :: r.1, r.2)
      else ([], c :: cs)

/-- Numeric value of a digit run. -/
def digitsVal (ds : List Char) : Nat :=
  ds.foldl (fun a c => a * 10 + (c.toNat - 48)) 0

/-- Maximal run of decimal digits, kept as digit values, and the remainder. -/
def takeDigitVals : List Char → (List (Fin 10) × List Char)
  | [] => ([], [])
  | c :: cs =>
      if isDigitChar c then
        let r := takeDigitVals cs
        (⟨(c.toNat - 48) % 10, Nat.mod_lt _ (by decide)⟩ :: r.1, r.2)
      else ([], c :: cs)

/-- The optional exponent group `[eE][-+]?\d+` of the scanner's number
regex: sign, magnitude and remainder when it matches here. -/
def parseExp : List Char → Option (Bool × Nat × List Char)
  | [] => none
  | e :: rest =>
      if e = 'e' ∨ e = 'E' then
        match rest with
        | '+' :: d :: ds =>
            if isDigitChar d then
              let r := takeDigits ds
              some (false, digitsVal (d :: r.1), r.2)
            else none
        | '-' :: d :: ds =>
            if isDigitChar d then
              let r := takeDigits ds
              some (true, digitsVal (d :: r.1), r.2)
            else none
        | d :: ds =>
            if isDigitChar d then
              let r := takeDigits ds
              some (false, digitsVal (d :: r.1), r.2)
            else none
        | [] => none
      else none

/-- The optional fraction group `\.\d+` of the scanner's number regex: first
fraction digit, further fraction digits and remainder when it matches here. -/
def fracPart : List Char → Option (Fin 10 × List (Fin 10) × List Char)
  | '.' :: d :: cs =>
      if isDigitChar d then
        let r := takeDigitVals cs
        some (⟨(d.toNat - 48) % 10, Nat.mod_lt _ (by decide)⟩, r.1, r.2)
      else none
  | _ => none

/-- The optional fraction and exponent groups after the integer part, and the
assembled value: a float when a fraction or exponent matched, else an int —
the `parse_float`/`parse_int` split of the scanner. -/
def numFromParts (neg : Bool) (ip : Nat) (cs : List Char) : Json × List Char :=
  match fracPart cs with
  | some (fd, fds, cs2) =>
      match parseExp cs2 with
      | some (eneg, emag, cs3) => (.fnum (.dec neg ip fd fds (some (eneg, emag))), cs3)
      | none => (.fnum (.dec neg ip fd fds none), cs2)
  | none =>
      match parseExp cs with
      | some (eneg, emag, cs3) => (.fnum (.sci neg ip eneg emag), cs3)
      | none => (if neg then Json.num (-(ip : Int)) else Json.num (ip : Int), cs)

/-- The literal constants the scanner accepts where the number regex did not
match: here the ones not starting with `-`. -/
def parseConst : List Char → Option (Json × List Char)
  | 'n' :: 'u' :: 'l' :: 'l' :: rest => some (.null, rest)
  | 't' :: 'r' :: 'u' :: 'e' :: rest => some (.bool true, rest)
  | 'f' :: 'a' :: 'l' :: 's' :: 'e' :: rest => some (.bool false, rest)
  | 'N' :: 'a' :: 'N' :: rest => some (.fnum .nan, rest)
  | 'I' :: 'n' :: 'f' :: 'i' :: 'n' :: 'i' :: 't' :: 'y' :: rest =>
      some (.fnum (.inf false), rest)
  | _ => none

/-- `-Infinity`, checked on a `-` the number regex did not match after. -/
def parseNegInf : List Char → Option (Json × List Char)
  | 'I' :: 'n' :: 'f' :: 'i' :: 'n' :: 'i' :: 't' :: 'y' :: rest =>
      some (.fnum (.inf true), rest)
  | _ => none

/-- The scanner's number regex `(-?(?:0|[1-9]\d*))(\.\d+)?([eE][-+]?\d+)?`
after an optional leading `-` was consumed: the integer part is a single `0`
or starts with a nonzero digit (`01` leaves the `1` unconsumed, exactly as
the regex does — the caller then fails on the stray digit as `json.loads`
raises on it). -/
def parseNumberCore (neg : Bool) : List Char → Option (Json × List Char)
  | [] => none
  | c :: cs2 =>
      if c = '0' then some (numFromParts neg 0 cs2)
      else if isDigitChar c then
        let r := takeDigits cs2
        some (numFromParts neg (digitsVal (c :: r.1)) r.2)
      else none

/-- The body of a JSON string literal after the opening quote: content
characters and the remainder after the closing quote.  Escapes are decoded as
`json.loads` decodes them, `\uXXXX` and surrogate pairs included.  A lone
surrogate escape is accepted exactly as `json.loads` accepts it; the decoded
character stands in as U+FFFD because a Lean `Char` cannot carry a surrogate
code point (the parse succeeds and fails exactly as Python's, and
`json.dumps` output never contains a lone-surrogate escape, so no round-trip
statement meets the replacement). -/
def parseStringBody : Nat → List Char → Option (List Char × List Char)
  | 0, _ => none
  | _ + 1, [] => none
  | fuel + 1, c :: cs =>
      if c = '"' then some ([], cs)
      else if c = '\\' then
        match cs with
        | [] => none
        | e :: cs2 =>
            if e = '"' then (parseStringBody fuel cs2).map (fun r => ('"' :: r.1, r.2))
            else if e = '\\' then (parseStringBody fuel cs2).map (fun r => ('\\' :: r.1, r.2))
            else if e = '/' then (parseStringBody fuel cs2).map (fun r => ('/' :: r.1, r.2))
            else if e = 'n' then (parseStringBody fuel cs2).map (fun r => ('\n' :: r.1, r.2))
            else if e = 'r' then (parseStringBody fuel cs2).map (fun r => ('\r' :: r.1, r.2))
            else if e = 't' then (parseStringBody fuel cs2).map (fun r => ('\t' :: r.1, r.2))
            else if e = 'b' then
              (parseStringBody fuel cs2).map (fun r => (Char.ofNat 8 :: r.1, r.2))
            else if e = 'f' then
              (parseStringBody fuel cs2).map (fun r => (Char.ofNat 12 :: r.1, r.2))
            else if e = 'u' then
              match parseHex4 cs2 with
              | none => none
              | some (n, cs3) =>
                  if 55296 ≤ n ∧ n ≤ 56319 then
                    match cs3 with
                    | '\\' :: 'u' :: cs4 =>
                        match parseHex4 cs4 with
                        | none => none
                        | some (m, cs5) =>
                            if 56320 ≤ m ∧ m ≤ 57343 then
                              (parseStringBody fuel cs5).map (fun r =>
                                (Char.ofNat (65536 + (n - 55296) * 1024 + (m - 56320)) :: r.1,
                                  r.2))
                            else
                              (parseStringBody fuel cs3).map (fun r =>
                                ('\uFFFD' :: r.1, r.2))
                    | _ => (parseStringBody fuel cs3).map (fun r => ('\uFFFD' :: r.1, r.2))
                  else if 56320 ≤ n ∧ n ≤ 57343 then
                    (parseStringBody fuel cs3).map (fun r => ('\uFFFD' :: r.1, r.2))
                  else (parseStringBody fuel cs3).map (fun r => (Char.ofNat n :: r.1, r.2))
            else none
      else if c.toNat < 32 then none
      else (parseStringBody fuel cs).map (fun r => (c :: r.1, r.2))

/-- Python `dict` insertion: an existing key keeps its position and gets the
new value, a fresh key is appended.  This is how `json.loads` builds objects
(a repeated key keeps the last value). -/
def pyInsert (k : String) (v : Json) : List (String × Json) → List (String × Json)
  | [] => [(k, v)]
  | (k2, w) :: es => if k2 = k then (k2, v) :: es else (k2, w) :: pyInsert k v es

mutual

/-- One JSON value, leading whitespace allowed: the full `json.loads`
grammar, constants `NaN`/`Infinity`/`-Infinity` included (the scanner tries
the number regex first and the constants only where it does not match, which
on a `-` not followed by a digit is exactly the `-Infinity` check). -/
def parseVal : Nat → List Char → Option (Json × List Char)
  | 0, _ => none
  | fuel + 1, cs =>
      match skipWs cs with
      | [] => none
      | c :: cs1 =>
          if c = '[' then
            match skipWs cs1 with
            | ']' :: cs2 => some (.arr [], cs2)
            | cs2 =>
                match parseElems fuel cs2 with
                | some (xs, r) => some (.arr xs, r)
                | none => none
          else if c = '{' then
            match skipWs cs1 with
            | '}' :: cs2 => some (.obj [], cs2)
            | cs2 =>
                match parseEntries fuel [] cs2 with
                | some (es, r) => some (.obj es, r)
                | none => none
          else if c = '"' then
            match parseStringBody (cs1.length + 1) cs1 with
            | some (s, r) => some (.str (String.mk s), r)
            | none => none
          else if c = '-' then
            match parseNumberCore true cs1 with
            | some vr => some vr
            | none => parseNegInf cs1
          else if isDigitChar c then
            parseNumberCore false (c :: cs1)
          else
            parseConst (c :: cs1)

/-- The elements of a nonempty array after its `[` (and any whitespace). -/
def parseElems : Nat → List Char → Option (List Json × List Char)
  | 0, _ => none
  | fuel + 1, cs =>
      match parseVal fuel cs with
      | none => none
      | some (v, r) =>
          match skipWs r with
          | ',' :: r2 =>
              match parseElems fuel r2 with
              | some (xs, r3) => some (v :: xs, r3)
              | none => none
          | ']' :: r2 => some ([v], r2)
          | _ => none

/-- The entries of a nonempty object after its `{` (and any whitespace),
accumulated with Python `dict` insertion semantics. -/
def parseEntries :
    Nat → List (String × Json) → List Char → Option (List (String × Json) × List Char)
  | 0, _, _ => none
  | fuel + 1, acc, cs =>
      match skipWs cs with
      | '"' :: cs1 =>
          match parseStringBody (cs1.length + 1) cs1 with
          | none => none
          | some (k, r) =>
              match skipWs r with
              | ':' :: r2 =>
                  match parseVal fuel r2 with
                  | none => none
                  | some (v, r3) =>
                      match skipWs r3 with
                      | ',' :: r4 => parseEntries fuel (pyInsert (String.mk k) v acc) r4
                      | '}' :: r4 => some (pyInsert (String.mk k) v acc, r4)
                      | _ => none
              | _ => none
      | _ => none

end

/-- `json.loads(s)`: one value, and nothing but whitespace after it
("Extra data" otherwise).  The fuel never runs out on the way to an accepted
value (every recursion step consumes input).  CPython additionally raises
`RecursionError` past its interpreter recursion limit on pathologically
nested input — an implementation limit outside the JSON grammar, not
modelled here. -/
def loads (s : String) : Option Json :=
  match parseVal (s.length + 1) s.data with
  | some (v, rest) => if skipWs rest = [] then some v else none
  | none => none

example : loads "\x7b\"thoughts\": \"hi\"\x7d" = some (.obj [("thoughts", .str "hi")]) := rfl

example : loads "not json" = none := rfl

example : loads " [1, -2, null, true, \"a\\nb\"] " =
    some (.arr [.num 1, .num (-2), .null, .bool true, .str "a\nb"]) := rfl

example : loads "[1, 2" = none := rfl

example : loads "[] extra" = none := rfl

example : loads "\x7b\"a\": 1, \"a\": 2\x7d" = some (.obj [("a", .num 2)]) := rfl

example : loads "01" = none := rfl

example : loads "1.5" = some (.fnum (.dec false 1 5 [] none)) := rfl

example : loads "-0.25e-2" = some (.fnum (.dec true 0 2 [5] (some (true, 2)))) := rfl

example : loads "1e+3" = some (.fnum (.sci false 1 false 3)) := rfl

example : loads "NaN" = some (.fnum .nan) := rfl

example : loads "[-Infinity, Infinity]" =
    some (.arr [.fnum (.inf true), .fnum (.inf false)]) := rfl

example : loads "1." = none := rfl

example : loads "\x7b\"thoughts\": 01\x7d" = none := rfl

example : loads "\"a\\ud800b\"" = some (.str "a\uFFFDb") := rfl

example : dumps none (.fnum (.dec true 0 2 [5] (some (true, 2)))) = "-0.25e-2" := rfl

set_option maxRecDepth 20000 in
example : loads "\x7b\"thoughts\": 01, \"command\": \x7b\"name\": \"finish\", \"args\": \x7b\"result\": \"ok\"\x7d\x7d\x7d" = none := rfl

set_option maxRecDepth 20000 in
example :
    loads "\x7b\"thoughts\": 1.5, \"command\": \x7b\"name\": \"finish\", \"args\": \x7b\"result\": \"ok\"\x7d\x7d\x7d" =
      some (.obj [("thoughts", .fnum (.dec false 1 5 [] none)),
        ("command", .obj [("name", .str "finish"),
          ("args", .obj [("result", .str "ok")])])]) := rfl

/-! ### Fuel needed by the parser on printed output, and well-formed values.

A Python in-memory value can never hold two entries with the same key in one
dict, so the values the program passes to `json.dump` satisfy `wfJson`. -/

mutual

/-- Fuel sufficient for `parseVal` on the printing of `v` (any larger fuel
works too, see `parseVal_printVal`). -/
def needVal : Json → Nat
  | .null | .bool _ | .num _ | .fnum _ | .str _ => 1
  | .arr [] => 1
  | .arr (x :: xs) => 1 + needElems (x :: xs)
  | .obj [] => 1
  | .obj (e :: es) => 1 + needEntries (e :: es)
termination_by structural j => j

/-- Fuel sufficient for `parseElems` on a printed nonempty element list. -/
def needElems : List Json → Nat
  | [] => 1
  | [x] => 1 + needVal x
  | x :: y :: xs => 1 + max (needVal x) (needElems (y :: xs))
termination_by structural l => l

/-- Fuel sufficient for `parseEntries` on a printed nonempty entry list. -/
def needEntries : List (String × Json) → Nat
  | [] => 1
  | [(_, v)] => 1 + needVal v
  | (_, v) :: e :: es => 1 + max (needVal v) (needEntries (e :: es))
termination_by structural l => l

end

/-- No string repeated in a list (each dict key at most once). -/
def distinctKeys : List String → Bool
  | [] => true
  | k :: t => !(decide (k ∈ t)) && distinctKeys t

mutual

/-- Every object inside `v` has pairwise distinct keys: true of any value
that exists as a Python object (dict keys are unique). -/
def wfJson : Json → Bool
  | .null | .bool _ | .num _ | .fnum _ | .str _ => true
  | .arr xs => wfList xs
  | .obj es => distinctKeys (es.map Prod.fst) && wfEntries es
termination_by structural j => j

/-- `wfJson` on every element. -/
def wfList : List Json → Bool
  | [] => true
  | x :: xs => wfJson x && wfList xs
termination_by structural l => l

/-- `wfJson` on every entry value. -/
def wfEntries : List (String × Json) → Bool
  | [] => true
  | (_, v) :: es => wfJson v && wfEntries es
termination_by structural l => l

end

/-- A remainder that does not continue a digit run. -/
def noDigitHead (cs : List Char) : Prop :=
  ∀ c, cs.head? = some c → isDigitChar c = false

/-- The remainder after a printed number must not extend the number: no
digit, no fraction dot, no exponent letter (inside printed output it
continues with a separator or a closing bracket). -/
def noDigitStart (cs : List Char) : Prop :=
  ∀ c, cs.head? = some c →
    isDigitChar c = false ∧ c ≠ '.' ∧ c ≠ 'e' ∧ c ≠ 'E'

/-- `noDigitStart` includes `noDigitHead`. -/
theorem noDigitStart_head (cs : List Char) (h : noDigitStart cs) : noDigitHead cs :=
  fun c hc => (h c hc).1

/-! ### Character-level lemmas -/

theorem char_eq_iff_toNat (c d : Char) : c = d ↔ c.toNat = d.toNat := by
  constructor
  · intro h; rw [h]
  · intro h
    apply Char.eq_of_val_eq
    exact UInt32.toNat.inj h

theorem char_toNat_valid (c : Char) :
    c.toNat < 55296 ∨ (57343 < c.toNat ∧ c.toNat < 1114112) := by
  have h := c.valid
  rcases h with h | ⟨h1, h2⟩
  · exact Or.inl h
  · exact Or.inr ⟨h1, h2⟩

theorem char_toNat_ofNat (n : Nat) (h : n.isValidChar) : (Char.ofNat n).toNat = n := by
  simp only [Char.ofNat, h, dif_pos]
  simp [Char.ofNatAux, Char.toNat, UInt32.toNat, BitVec.ofNatLt]

theorem char_toNat_ofNat_lt (n : Nat) (h : n < 55296) : (Char.ofNat n).toNat = n :=
  char_toNat_ofNat n (Or.inl h)

theorem isWsChar_iff (c : Char) :
    isWsChar c = true ↔ (c.toNat = 32 ∨ c.toNat = 9 ∨ c.toNat = 10 ∨ c.toNat = 13) := by
  simp only [isWsChar, Bool.or_eq_true, decide_eq_true_eq]
  rw [char_eq_iff_toNat, char_eq_iff_toNat, char_eq_iff_toNat, char_eq_iff_toNat]
  simp [or_assoc]

theorem isDigitChar_iff (c : Char) :
    isDigitChar c = true ↔ (48 ≤ c.toNat ∧ c.toNat ≤ 57) := by
  simp [isDigitChar]

theorem digitChar_toNat (d : Nat) (h : d < 10) : (digitChar d).toNat = 48 + d :=
  char_toNat_ofNat_lt (48 + d) (by omega)

theorem skipWs_cons_not_ws (c : Char) (cs : List Char) (h : isWsChar c = false) :
    skipWs (c :: cs) = c :: cs := by
  simp [skipWs, h]

theorem skipWs_append_ws (ws cs : List Char) (h : ∀ c ∈ ws, isWsChar c = true) :
    skipWs (ws ++ cs) = skipWs cs := by
  induction ws with
  | nil => simp
  | cons c t ih =>
      have hc : isWsChar c = true := h c (by simp)
      simp only [List.cons_append, skipWs, hc, if_pos]
      exact ih fun d hd => h d (by simp [hd])

theorem nlIndent_ws (indent : Option Nat) (lvl : Nat) :
    ∀ c ∈ nlIndent indent lvl, isWsChar c = true := by
  intro c hc
  cases indent with
  | none => simp [nlIndent] at hc
  | some n =>
      simp only [nlIndent, List.mem_cons] at hc
      rcases hc with rfl | hc
      · rw [isWsChar_iff]; right; right; left; rfl
      · have := List.eq_of_mem_replicate hc
        subst this
        rw [isWsChar_iff]; left; rfl

theorem skipWs_nlIndent (indent : Option Nat) (lvl : Nat) (cs : List Char) :
    skipWs (nlIndent indent lvl ++ cs) = skipWs cs :=
  skipWs_append_ws _ _ (nlIndent_ws indent lvl)

theorem itemSep_eq (indent : Option Nat) (lvl : Nat) :
    ∃ ws, itemSep indent lvl = ',' :: ws ∧ ∀ c ∈ ws, isWsChar c = true := by
  cases indent with
  | none =>
      refine ⟨[' '], rfl, ?_⟩
      intro c hc
      simp only [List.mem_singleton] at hc
      subst hc
      rw [isWsChar_iff]; left; rfl
  | some n =>
      refine ⟨'\n' :: List.replicate (n * lvl) ' ', rfl, ?_⟩
      intro c hc
      simp only [List.mem_cons] at hc
      rcases hc with rfl | hc
      · rw [isWsChar_iff]; right; right; left; rfl
      · have := List.eq_of_mem_replicate hc
        subst this
        rw [isWsChar_iff]; left; rfl

theorem hexVal_hexDigitChar (d : Nat) (h : d < 16) : hexVal (hexDigitChar d) = some d := by
  unfold hexDigitChar
  by_cases h10 : d < 10
  · rw [if_pos h10]
    have ht : (Char.ofNat (48 + d)).toNat = 48 + d := char_toNat_ofNat_lt _ (by omega)
    simp only [hexVal, ht]
    rw [if_pos (by omega)]
    congr 1
    omega
  · rw [if_neg h10]
    have ht : (Char.ofNat (87 + d)).toNat = 87 + d := char_toNat_ofNat_lt _ (by omega)
    simp only [hexVal, ht]
    rw [if_neg (by omega), if_pos (by omega)]
    congr 1
    omega

theorem parseHex4_hex4 (n : Nat) (h : n < 65536) (cs : List Char) :
    parseHex4 (hex4 n ++ cs) = some (n, cs) := by
  simp only [hex4, List.cons_append, List.nil_append, parseHex4]
  rw [hexVal_hexDigitChar _ (by omega), hexVal_hexDigitChar _ (by omega),
    hexVal_hexDigitChar _ (by omega), hexVal_hexDigitChar _ (by omega)]
  simp only
  congr 1
  congr 1
  omega

/-! ### Digit-run lemmas -/

theorem digitsVal_append (ds : List Char) (c : Char) :
    digitsVal (ds ++ [c]) = digitsVal ds * 10 + (c.toNat - 48) := by
  simp [digitsVal, List.foldl_append]

theorem natDigitsAux_spec : ∀ fuel n, n < fuel →
    (∀ c ∈ natDigitsAux fuel n, isDigitChar c = true) ∧
      natDigitsAux fuel n ≠ [] ∧ digitsVal (natDigitsAux fuel n) = n := by
  intro fuel
  induction fuel with
  | zero => intro n h; omega
  | succ f ih =>
      intro n h
      by_cases h10 : n < 10
      · refine ⟨?_, by simp [natDigitsAux, h10], ?_⟩
        · intro c hc
          simp only [natDigitsAux, if_pos h10, List.mem_singleton] at hc
          subst hc
          rw [isDigitChar_iff, digitChar_toNat n h10]
          omega
        · simp [natDigitsAux, h10, digitsVal, digitChar_toNat n h10]
      · have hdiv : n / 10 < f := by
          have := Nat.div_lt_self (by omega : 0 < n) (by omega : 1 < 10)
          omega
        obtain ⟨ihd, ihne, ihval⟩ := ih (n / 10) hdiv
        simp only [natDigitsAux, if_neg h10]
        refine ⟨?_, by simp, ?_⟩
        · intro c hc
          rcases List.mem_append.mp hc with hc | hc
          · exact ihd c hc
          · simp only [List.mem_singleton] at hc
            subst hc
            rw [isDigitChar_iff, digitChar_toNat _ (by omega)]
            omega
        · rw [digitsVal_append, ihval, digitChar_toNat _ (by omega)]
          omega

theorem natDigits_spec (n : Nat) :
    (∀ c ∈ natDigits n, isDigitChar c = true) ∧
      natDigits n ≠ [] ∧ digitsVal (natDigits n) = n :=
  natDigitsAux_spec (n + 1) n (by omega)

theorem takeDigits_of_digits (ds rest : List Char) (hds : ∀ c ∈ ds, isDigitChar c = true)
    (hrest : noDigitHead rest) : takeDigits (ds ++ rest) = (ds, rest) := by
  induction ds with
  | nil =>
      simp only [List.nil_append]
      cases rest with
      | nil => rfl
      | cons c cs =>
          have := hrest c rfl
          simp [takeDigits, this]
  | cons c t ih =>
      have hc := hds c (by simp)
      simp only [List.cons_append, takeDigits, hc, if_true, List.append_eq]
      rw [ih fun d hd => hds d (by simp [hd])]

/-! ### Number-literal round trip -/

theorem natDigitsAux_head_ne_zero :
    ∀ (fuel m : Nat), 0 < m → m < fuel →
    ∀ d ds, natDigitsAux fuel m = d :: ds → d ≠ '0' := by
  intro fuel
  induction fuel with
  | zero => intro m hm hf; omega
  | succ f ih =>
      intro m hm hf d ds heq
      by_cases h10 : m < 10
      · simp only [natDigitsAux, if_pos h10, List.cons.injEq] at heq
        intro hz
        rw [← heq.1] at hz
        rw [char_eq_iff_toNat, digitChar_toNat m h10,
          show ('0' : Char).toNat = 48 from rfl] at hz
        omega
      · simp only [natDigitsAux, if_neg h10] at heq
        obtain ⟨-, hne, -⟩ := natDigitsAux_spec f (m / 10) (by omega)
        cases hds : natDigitsAux f (m / 10) with
        | nil => exact absurd hds hne
        | cons d2 ds2 =>
            rw [hds, List.cons_append, List.cons.injEq] at heq
            rw [← heq.1]
            exact ih (m / 10) (by omega) (by omega) d2 ds2 hds

theorem natDigits_head_ne_zero (m : Nat) (hm : 0 < m) (d : Char) (ds : List Char)
    (heq : natDigits m = d :: ds) : d ≠ '0' :=
  natDigitsAux_head_ne_zero (m + 1) m hm (by omega) d ds heq

theorem takeDigitVals_digits (ds : List (Fin 10)) (rest : List Char)
    (hrest : noDigitHead rest) :
    takeDigitVals ((ds.map fun d => digitChar d.val) ++ rest) = (ds, rest) := by
  induction ds with
  | nil =>
      simp only [List.map_nil, List.nil_append]
      cases rest with
      | nil => rfl
      | cons c cs =>
          have h := hrest c rfl
          simp [takeDigitVals, h]
  | cons d t ih =>
      have hc : isDigitChar (digitChar d.val) = true := by
        rw [isDigitChar_iff, digitChar_toNat d.val d.isLt]
        omega
      have hv : ((digitChar d.val).toNat - 48) % 10 = d.val := by
        rw [digitChar_toNat d.val d.isLt]
        have := d.isLt
        omega
      simp only [List.map_cons, List.cons_append, takeDigitVals, hc, if_true,
        List.append_eq, ih, Prod.mk.injEq, List.cons.injEq]
      exact ⟨⟨Fin.ext hv, trivial⟩, trivial⟩

theorem parseExp_none (rest : List Char) (hrest : noDigitStart rest) :
    parseExp rest = none := by
  cases rest with
  | nil => rfl
  | cons c cs =>
      obtain ⟨-, -, h3, h4⟩ := hrest c rfl
      simp [parseExp, h3, h4]

theorem parseExp_expChars (eneg : Bool) (emag : Nat) (rest : List Char)
    (hrest : noDigitHead rest) :
    parseExp (expChars (some (eneg, emag)) ++ rest) = some (eneg, emag, rest) := by
  obtain ⟨hdig, hne, hval⟩ := natDigits_spec emag
  cases hds : natDigits emag with
  | nil => exact absurd hds hne
  | cons d ds =>
      have hd0 : isDigitChar d = true := hdig d (by rw [hds]; simp)
      have htd : takeDigits (ds ++ rest) = (ds, rest) :=
        takeDigits_of_digits ds rest (fun c hc => hdig c (by rw [hds]; simp [hc])) hrest
      have hplus : d ≠ '+' := by
        intro he
        have h2 := (isDigitChar_iff d).mp hd0
        rw [he, show ('+' : Char).toNat = 43 from rfl] at h2
        omega
      have hminus : d ≠ '-' := by
        intro he
        have h2 := (isDigitChar_iff d).mp hd0
        rw [he, show ('-' : Char).toNat = 45 from rfl] at h2
        omega
      rw [hds] at hval
      cases eneg
      · rw [show expChars (some (false, emag)) = 'e' :: natDigits emag from by
          simp [expChars]]
        rw [hds]
        simp only [List.cons_append]
        simp [parseExp, hplus, hminus, hd0, htd, hval]
      · rw [show expChars (some (true, emag)) = 'e' :: '-' :: natDigits emag from by
          simp [expChars]]
        rw [hds]
        simp only [List.cons_append]
        simp [parseExp, hd0, htd, hval]

theorem fracPart_not_dot (cs : List Char) (h : ∀ c, cs.head? = some c → c ≠ '.') :
    fracPart cs = none := by
  cases cs with
  | nil => rfl
  | cons c t =>
      have hc := h c rfl
      cases t with
      | nil => simp [fracPart, hc]
      | cons d u => simp [fracPart, hc]

theorem fracPart_digits (fd : Fin 10) (fds : List (Fin 10)) (tail : List Char)
    (htail : noDigitHead tail) :
    fracPart ('.' :: ((digitChar fd.val :: fds.map fun d => digitChar d.val) ++ tail))
      = some (fd, fds, tail) := by
  have hdc : isDigitChar (digitChar fd.val) = true := by
    rw [isDigitChar_iff, digitChar_toNat fd.val fd.isLt]
    omega
  have hfd : ((digitChar fd.val).toNat - 48) % 10 = fd.val := by
    rw [digitChar_toNat fd.val fd.isLt]
    have := fd.isLt
    omega
  have hfe : (⟨((digitChar fd.val).toNat - 48) % 10,
      Nat.mod_lt _ (by decide)⟩ : Fin 10) = fd := Fin.ext hfd
  have htv := takeDigitVals_digits fds tail htail
  simp only [List.cons_append]
  simp only [fracPart, hdc, eq_self_iff_true, if_true, htv, hfe]

theorem numFromParts_int (neg : Bool) (ip : Nat) (rest : List Char)
    (hrest : noDigitStart rest) :
    numFromParts neg ip rest =
      (if neg then Json.num (-(ip : Int)) else Json.num (ip : Int), rest) := by
  have hfp : fracPart rest = none := fracPart_not_dot rest (fun c hc => (hrest c hc).2.1)
  have hpe : parseExp rest = none := parseExp_none rest hrest
  simp only [numFromParts, hfp, hpe]

theorem parseNumberCore_natDigits (neg : Bool) (m : Nat) (rest : List Char)
    (hrest : noDigitHead rest) :
    parseNumberCore neg (natDigits m ++ rest) = some (numFromParts neg m rest) := by
  by_cases hm : m = 0
  · subst hm
    rw [show natDigits 0 = ['0'] from rfl]
    simp [parseNumberCore]
  · obtain ⟨hdig, hne, hval⟩ := natDigits_spec m
    cases hds : natDigits m with
    | nil => exact absurd hds hne
    | cons d ds =>
        have hd0 : isDigitChar d = true := hdig d (by rw [hds]; simp)
        have hdz : d ≠ '0' := natDigits_head_ne_zero m (by omega) d ds hds
        have htd : takeDigits (ds ++ rest) = (ds, rest) :=
          takeDigits_of_digits ds rest (fun c hc => hdig c (by rw [hds]; simp [hc])) hrest
        rw [hds] at hval
        simp only [List.cons_append]
        simp [parseNumberCore, hdz, hd0, htd, hval]

theorem parseNumberCore_dec (neg : Bool) (ip : Nat) (fd : Fin 10) (fds : List (Fin 10))
    (e : Option (Bool × Nat)) (rest : List Char) (hrest : noDigitStart rest) :
    parseNumberCore neg ((natDigits ip ++
      ('.' :: ((digitChar fd.val :: fds.map fun d => digitChar d.val) ++ expChars e)))
        ++ rest) = some (.fnum (.dec neg ip fd fds e), rest) := by
  rw [List.append_assoc]
  rw [parseNumberCore_natDigits neg ip _ (by
    intro c hc
    simp only [List.cons_append, List.head?_cons, Option.some_inj] at hc
    rw [← hc]
    rfl)]
  congr 1
  have hnh : noDigitHead (expChars e ++ rest) := by
    cases e with
    | none =>
        simp only [expChars, List.nil_append]
        exact noDigitStart_head rest hrest
    | some p =>
        obtain ⟨b, g⟩ := p
        intro c hc
        simp only [expChars, List.cons_append, List.head?_cons, Option.some_inj] at hc
        rw [← hc]
        rfl
  have hfp := fracPart_digits fd fds (expChars e ++ rest) hnh
  cases e with
  | none =>
      have hpe : parseExp rest = none := parseExp_none rest hrest
      simp only [expChars, List.cons_append, List.append_assoc, List.nil_append,
        List.append_nil] at hfp ⊢
      simp only [numFromParts, hfp, hpe]
  | some p =>
      obtain ⟨b, g⟩ := p
      have hpe := parseExp_expChars b g rest (noDigitStart_head rest hrest)
      simp only [expChars, List.cons_append, List.append_assoc, List.nil_append,
        List.append_nil] at hfp hpe ⊢
      simp only [numFromParts, hfp, hpe]

theorem parseNumberCore_sci (neg : Bool) (ip : Nat) (eneg : Bool) (emag : Nat)
    (rest : List Char) (hrest : noDigitStart rest) :
    parseNumberCore neg ((natDigits ip ++
      ('e' :: ((if eneg then ['-'] else []) ++ natDigits emag))) ++ rest)
      = some (.fnum (.sci neg ip eneg emag), rest) := by
  rw [List.append_assoc]
  rw [parseNumberCore_natDigits neg ip _ (by
    intro c hc
    simp only [List.cons_append, List.head?_cons, Option.some_inj] at hc
    rw [← hc]
    rfl)]
  congr 1
  have hfp : fracPart (('e' :: ((if eneg then ['-'] else []) ++ natDigits emag)) ++ rest)
      = none := fracPart_not_dot _ (by
        intro c hc
        simp only [List.cons_append, List.head?_cons, Option.some_inj] at hc
        rw [← hc]
        decide)
  have hpe := parseExp_expChars eneg emag rest (noDigitStart_head rest hrest)
  rw [show expChars (some (eneg, emag)) =
    'e' :: ((if eneg then ['-'] else []) ++ natDigits emag) from rfl] at hpe
  simp only [List.cons_append, List.append_assoc] at hfp hpe ⊢
  simp only [numFromParts, hfp, hpe]

/-! ### String-body round trip -/

theorem escapeChar_ne_nil (c : Char) : escapeChar c ≠ [] := by
  unfold escapeChar
  split
  · simp
  split
  · simp
  split
  · simp
  split
  · simp
  split
  · simp
  split
  · simp
  split
  · simp
  split
  · simp
  split
  · simp
  · simp

theorem escapeChar_length_pos (c : Char) : 1 ≤ (escapeChar c).length :=
  List.length_pos.mpr (escapeChar_ne_nil c)

theorem escapeString_length (s : String) : s.data.length ≤ (escapeString s).length := by
  unfold escapeString
  induction s.data with
  | nil => simp
  | cons c t ih =>
      simp only [List.flatMap_cons, List.length_append, List.length_cons]
      have := escapeChar_length_pos c
      omega

theorem parseStringBody_surrogate (hi lo : Nat) (hhi1 : 55296 ≤ hi) (hhi2 : hi ≤ 56319)
    (hlo1 : 56320 ≤ lo) (hlo2 : lo ≤ 57343) (cs : List Char) (f : Nat) (t rest : List Char)
    (h : parseStringBody f cs = some (t, rest)) :
    parseStringBody (f + 1) ('\\' :: 'u' :: (hex4 hi ++ ('\\' :: 'u' :: (hex4 lo ++ cs))))
      = some (Char.ofNat (65536 + (hi - 55296) * 1024 + (lo - 56320)) :: t, rest) := by
  have e1 : (55296 ≤ hi ∧ hi ≤ 56319) = True := by
    simp only [eq_iff_iff, iff_true]
    omega
  have e2 : (56320 ≤ lo ∧ lo ≤ 57343) = True := by
    simp only [eq_iff_iff, iff_true]
    omega
  simp [parseStringBody, parseHex4_hex4 hi (by omega), parseHex4_hex4 lo (by omega),
    e1, e2, h]

theorem parseStringBody_escapeChar (c : Char) (cs : List Char) (f : Nat)
    (t rest : List Char) (h : parseStringBody f cs = some (t, rest)) :
    parseStringBody (f + 1) (escapeChar c ++ cs) = some (c :: t, rest) := by
  have hval := char_toNat_valid c
  unfold escapeChar
  by_cases h1 : c = '"'
  · subst h1
    rw [if_pos rfl]
    simp [parseStringBody, h]
  · rw [if_neg h1]
    by_cases h2 : c = '\\'
    · subst h2
      rw [if_pos rfl]
      simp [parseStringBody, h]
    · rw [if_neg h2]
      by_cases h3 : c = '\n'
      · subst h3
        rw [if_pos rfl]
        simp [parseStringBody, h]
      · rw [if_neg h3]
        by_cases h4 : c = '\r'
        · subst h4
          rw [if_pos rfl]
          simp [parseStringBody, h]
        · rw [if_neg h4]
          by_cases h5 : c = '\t'
          · subst h5
            rw [if_pos rfl]
            simp [parseStringBody, h]
          · rw [if_neg h5]
            by_cases h6 : c.toNat = 8
            · rw [if_pos h6]
              have hc : c = '\x08' := by
                rw [char_eq_iff_toNat, h6]
                rfl
              subst hc
              simp [parseStringBody, h]
            · rw [if_neg h6]
              by_cases h7 : c.toNat = 12
              · rw [if_pos h7]
                have hc : c = '\x0c' := by
                  rw [char_eq_iff_toNat, h7]
                  rfl
                subst hc
                simp [parseStringBody, h]
              · rw [if_neg h7]
                by_cases h8 : 32 ≤ c.toNat ∧ c.toNat ≤ 126
                · rw [if_pos h8]
                  have hq : (c = '"') = False := by simp [h1]
                  have hb : (c = '\\') = False := by simp [h2]
                  simp only [List.singleton_append, parseStringBody, hq, hb,
                    if_false]
                  rw [if_neg (by omega : ¬ c.toNat < 32)]
                  simp [h]
                · rw [if_neg h8]
                  by_cases h9 : c.toNat < 65536
                  · rw [if_pos h9]
                    have hns : (55296 ≤ c.toNat ∧ c.toNat ≤ 56319) = False := by
                      simp only [eq_iff_iff, iff_false]
                      omega
                    have hns2 : (56320 ≤ c.toNat ∧ c.toNat ≤ 57343) = False := by
                      simp only [eq_iff_iff, iff_false]
                      omega
                    simp [parseStringBody, parseHex4_hex4 c.toNat h9, hns, hns2, h,
                      Char.ofNat_toNat]
                  · rw [if_neg h9]
                    have hm : c.toNat < 1114112 := by omega
                    have hs := parseStringBody_surrogate (55296 + (c.toNat - 65536) / 1024)
                      (56320 + (c.toNat - 65536) % 1024) (by omega) (by omega) (by omega)
                      (by omega) cs f t rest h
                    rw [show 65536 + (55296 + (c.toNat - 65536) / 1024 - 55296) * 1024 +
                      (56320 + (c.toNat - 65536) % 1024 - 56320) = c.toNat from by omega] at hs
                    rw [Char.ofNat_toNat] at hs
                    simpa using hs

theorem parseStringBody_escape :
    ∀ (l : List Char) (rest : List Char) (fuel : Nat), l.length < fuel →
      parseStringBody fuel (l.flatMap escapeChar ++ '"' :: rest) = some (l, rest) := by
  intro l
  induction l with
  | nil =>
      intro rest fuel hf
      cases fuel with
      | zero => omega
      | succ f => simp [parseStringBody]
  | cons c t ih =>
      intro rest fuel hf
      cases fuel with
      | zero => omega
      | succ f =>
          have hrec := ih rest f (by simp at hf; omega)
          simp only [List.flatMap_cons, List.append_assoc]
          exact parseStringBody_escapeChar c _ f t rest hrec

/-! ### Heads of printed output, whitespace invariance, dict insertion -/

theorem char_ne_of_toNat (c d : Char) (h : c.toNat ≠ d.toNat) : c ≠ d :=
  fun he => h (by rw [he])

theorem digit_head_props (c : Char) (h : isDigitChar c = true) :
    isWsChar c = false ∧ c ≠ ']' ∧ c ≠ '}' ∧ c ≠ '[' ∧ c ≠ '{' ∧ c ≠ '"' ∧ c ≠ '-' := by
  rw [isDigitChar_iff] at h
  refine ⟨?_, ?_, ?_, ?_, ?_, ?_, ?_⟩
  · cases hw : isWsChar c
    · rfl
    · rw [isWsChar_iff] at hw
      omega
  · exact char_ne_of_toNat c ']' (by rw [show (']' : Char).toNat = 93 from rfl]; omega)
  · exact char_ne_of_toNat c '}' (by rw [show ('}' : Char).toNat = 125 from rfl]; omega)
  · exact char_ne_of_toNat c '[' (by rw [show ('[' : Char).toNat = 91 from rfl]; omega)
  · exact char_ne_of_toNat c '{' (by rw [show ('{' : Char).toNat = 123 from rfl]; omega)
  · exact char_ne_of_toNat c '"' (by rw [show ('"' : Char).toNat = 34 from rfl]; omega)
  · exact char_ne_of_toNat c '-' (by rw [show ('-' : Char).toNat = 45 from rfl]; omega)

theorem printVal_head (ind : Option Nat) (lvl : Nat) (v : Json) :
    ∃ c cs, printVal ind lvl v = c :: cs ∧ isWsChar c = false ∧ c ≠ ']' ∧ c ≠ '}' := by
  cases v with
  | null => exact ⟨'n', _, rfl, by decide, by decide, by decide⟩
  | bool b =>
      cases b
      · exact ⟨'f', _, rfl, by decide, by decide, by decide⟩
      · exact ⟨'t', _, rfl, by decide, by decide, by decide⟩
  | num n =>
      by_cases hn : n < 0
      · exact ⟨'-', natDigits n.natAbs, by simp [printVal, intDigits, hn], by decide,
          by decide, by decide⟩
      · obtain ⟨hdig, hne, _⟩ := natDigits_spec n.toNat
        cases hds : natDigits n.toNat with
        | nil => exact absurd hds hne
        | cons c cs =>
            obtain ⟨hw, hb1, hb2, _, _, _, _⟩ :=
              digit_head_props c (hdig c (by rw [hds]; simp))
            exact ⟨c, cs, by simp [printVal, intDigits, hn, hds], hw, hb1, hb2⟩
  | fnum f =>
      cases f with
      | nan => exact ⟨'N', ['a', 'N'], rfl, by decide, by decide, by decide⟩
      | inf neg =>
          cases neg
          · exact ⟨'I', ['n', 'f', 'i', 'n', 'i', 't', 'y'], rfl, by decide,
              by decide, by decide⟩
          · exact ⟨'-', ['I', 'n', 'f', 'i', 'n', 'i', 't', 'y'], rfl, by decide,
              by decide, by decide⟩
      | dec neg ip fd fds e =>
          cases neg
          · obtain ⟨hdig, hne, -⟩ := natDigits_spec ip
            cases hds : natDigits ip with
            | nil => exact absurd hds hne
            | cons d ds =>
                obtain ⟨hw2, hb1, hb2, -, -, -, -⟩ :=
                  digit_head_props d (hdig d (by rw [hds]; simp))
                refine ⟨d, ds ++ ('.' :: ((digitChar fd.val ::
                  fds.map fun d2 => digitChar d2.val) ++ expChars e)), ?_, hw2, hb1, hb2⟩
                rw [show printVal ind lvl (.fnum (.dec false ip fd fds e)) =
                  natDigits ip ++ ('.' :: ((digitChar fd.val ::
                    fds.map fun d2 => digitChar d2.val) ++ expChars e)) from rfl, hds]
                rfl
          · exact ⟨'-', natDigits ip ++ ('.' :: ((digitChar fd.val ::
              fds.map fun d2 => digitChar d2.val) ++ expChars e)), rfl, by decide,
              by decide, by decide⟩
      | sci neg ip eneg emag =>
          cases neg
          · obtain ⟨hdig, hne, -⟩ := natDigits_spec ip
            cases hds : natDigits ip with
            | nil => exact absurd hds hne
            | cons d ds =>
                obtain ⟨hw2, hb1, hb2, -, -, -, -⟩ :=
                  digit_head_props d (hdig d (by rw [hds]; simp))
                refine ⟨d, ds ++ ('e' :: ((if eneg then ['-'] else []) ++
                  natDigits emag)), ?_, hw2, hb1, hb2⟩
                rw [show printVal ind lvl (.fnum (.sci false ip eneg emag)) =
                  natDigits ip ++ ('e' :: ((if eneg then ['-'] else []) ++
                    natDigits emag)) from rfl, hds]
                rfl
          · exact ⟨'-', natDigits ip ++ ('e' :: ((if eneg then ['-'] else []) ++
              natDigits emag)), rfl, by decide, by decide, by decide⟩
  | str s => exact ⟨'"', _, rfl, by decide, by decide, by decide⟩
  | arr xs =>
      cases xs with
      | nil => exact ⟨'[', _, rfl, by decide, by decide, by decide⟩
      | cons x t => exact ⟨'[', _, rfl, by decide, by decide, by decide⟩
  | obj es =>
      cases es with
      | nil => exact ⟨'{', _, rfl, by decide, by decide, by decide⟩
      | cons e t => exact ⟨'{', _, rfl, by decide, by decide, by decide⟩

theorem printElems_head (ind : Option Nat) (lvl : Nat) (x : Json) (xs : List Json) :
    ∃ c cs, printElems ind lvl (x :: xs) = c :: cs ∧ isWsChar c = false ∧
      c ≠ ']' ∧ c ≠ '}' := by
  obtain ⟨c, cs, heq, h1, h2, h3⟩ := printVal_head ind lvl x
  cases xs with
  | nil => exact ⟨c, cs, by simp [printElems, heq], h1, h2, h3⟩
  | cons y ys =>
      exact ⟨c, cs ++ (itemSep ind lvl ++ printElems ind lvl (y :: ys)),
        by simp [printElems, heq], h1, h2, h3⟩

theorem printEntries_head (ind : Option Nat) (lvl : Nat) (e : String × Json)
    (es : List (String × Json)) :
    ∃ cs, printEntries ind lvl (e :: es) = '"' :: cs := by
  obtain ⟨k, v⟩ := e
  cases es with
  | nil => exact ⟨_, rfl⟩
  | cons e2 es2 =>
      exact ⟨escapeString k ++ '"' :: ':' :: ' ' :: (printVal ind lvl v ++
        (itemSep ind lvl ++ printEntries ind lvl (e2 :: es2))), by simp [printEntries]⟩

theorem parseVal_ws (fuel : Nat) (ws cs : List Char) (h : ∀ c ∈ ws, isWsChar c = true) :
    parseVal fuel (ws ++ cs) = parseVal fuel cs := by
  cases fuel with
  | zero => rfl
  | succ f =>
      simp only [parseVal]
      rw [skipWs_append_ws ws cs h]

theorem parseElems_ws (fuel : Nat) (ws cs : List Char) (h : ∀ c ∈ ws, isWsChar c = true) :
    parseElems fuel (ws ++ cs) = parseElems fuel cs := by
  cases fuel with
  | zero => rfl
  | succ f =>
      simp only [parseElems]
      rw [parseVal_ws f ws cs h]

theorem parseEntries_ws (fuel : Nat) (acc : List (String × Json)) (ws cs : List Char)
    (h : ∀ c ∈ ws, isWsChar c = true) :
    parseEntries fuel acc (ws ++ cs) = parseEntries fuel acc cs := by
  cases fuel with
  | zero => rfl
  | succ f =>
      simp only [parseEntries]
      rw [skipWs_append_ws ws cs h]

theorem pyInsert_fresh (k : String) (v : Json) (acc : List (String × Json))
    (h : ¬ k ∈ acc.map Prod.fst) : pyInsert k v acc = acc ++ [(k, v)] := by
  induction acc with
  | nil => rfl
  | cons e t ih =>
      obtain ⟨k2, w⟩ := e
      have hk : ¬ k2 = k := by
        intro he
        exact h (by simp [he])
      simp only [pyInsert, hk, if_false]
      rw [ih fun hm => h (by simp; right; exact (by simpa using hm))]
      simp

theorem noDigitStart_cons (c : Char) (cs : List Char) (h : isDigitChar c = false)
    (h2 : c ≠ '.') (h3 : c ≠ 'e') (h4 : c ≠ 'E') : noDigitStart (c :: cs) := by
  intro d hd
  simp only [List.head?_cons, Option.some_inj] at hd
  rw [← hd]
  exact ⟨h, h2, h3, h4⟩

theorem noDigitStart_nlIndent (ind : Option Nat) (lvl : Nat) (b : Char) (bs : List Char)
    (hb : isDigitChar b = false) (hb2 : b ≠ '.') (hb3 : b ≠ 'e') (hb4 : b ≠ 'E') :
    noDigitStart (nlIndent ind lvl ++ b :: bs) := by
  cases ind with
  | none => exact noDigitStart_cons b bs hb hb2 hb3 hb4
  | some n =>
      simp only [nlIndent, List.cons_append]
      exact noDigitStart_cons '\n' _ (by decide) (by decide) (by decide) (by decide)

theorem noDigitStart_itemSep (ind : Option Nat) (lvl : Nat) (cs : List Char) :
    noDigitStart (itemSep ind lvl ++ cs) := by
  obtain ⟨ws, heq, _⟩ := itemSep_eq ind lvl
  rw [heq, List.cons_append]
  exact noDigitStart_cons ',' _ (by decide) (by decide) (by decide) (by decide)

theorem distinctKeys_cons (k : String) (t : List String) :
    distinctKeys (k :: t) = true ↔ ¬ k ∈ t ∧ distinctKeys t = true := by
  simp [distinctKeys]

theorem string_mk_data (s : String) : String.mk s.data = s := rfl

/-! ### The parser inverts the printer -/

set_option maxHeartbeats 1600000 in
mutual

theorem parseVal_printVal :
    ∀ (v : Json) (ind : Option Nat) (lvl : Nat) (rest : List Char) (fuel : Nat),
      needVal v ≤ fuel → noDigitStart rest → wfJson v = true →
      parseVal fuel (printVal ind lvl v ++ rest) = some (v, rest)
  | .null => by
      intro ind lvl rest fuel hf hr hw
      cases fuel with
      | zero => rw [show needVal .null = 1 from rfl] at hf; omega
      | succ f =>
          simp only [printVal, List.cons_append, List.nil_append]
          simp only [parseVal]
          rw [skipWs_cons_not_ws 'n' _ (by decide)]
          simp only [Char.reduceEq, if_true, if_false,
            show isDigitChar 'n' = false from rfl, Bool.false_eq_true,
            show parseConst ('n' :: 'u' :: 'l' :: 'l' :: rest) =
              some (Json.null, rest) from rfl]
  | .bool true => by
      intro ind lvl rest fuel hf hr hw
      cases fuel with
      | zero => rw [show needVal (.bool true) = 1 from rfl] at hf; omega
      | succ f =>
          simp only [printVal, List.cons_append, List.nil_append]
          simp only [parseVal]
          rw [skipWs_cons_not_ws 't' _ (by decide)]
          simp only [Char.reduceEq, if_true, if_false,
            show isDigitChar 't' = false from rfl, Bool.false_eq_true,
            show parseConst ('t' :: 'r' :: 'u' :: 'e' :: rest) =
              some (Json.bool true, rest) from rfl]
  | .bool false => by
      intro ind lvl rest fuel hf hr hw
      cases fuel with
      | zero => rw [show needVal (.bool false) = 1 from rfl] at hf; omega
      | succ f =>
          simp only [printVal, List.cons_append, List.nil_append]
          simp only [parseVal]
          rw [skipWs_cons_not_ws 'f' _ (by decide)]
          simp only [Char.reduceEq, if_true, if_false,
            show isDigitChar 'f' = false from rfl, Bool.false_eq_true,
            show parseConst ('f' :: 'a' :: 'l' :: 's' :: 'e' :: rest) =
              some (Json.bool false, rest) from rfl]
  | .num n => by
      intro ind lvl rest fuel hf hr hw
      cases fuel with
      | zero => rw [show needVal (.num n) = 1 from rfl] at hf; omega
      | succ f =>
          by_cases hn : n < 0
          · have hcore := parseNumberCore_natDigits true n.natAbs rest
              (noDigitStart_head rest hr)
            rw [numFromParts_int true n.natAbs rest hr] at hcore
            simp only [if_pos rfl] at hcore
            obtain ⟨hdig, hne, -⟩ := natDigits_spec n.natAbs
            cases hds : natDigits n.natAbs with
            | nil => exact absurd hds hne
            | cons d ds =>
                rw [hds] at hcore
                simp only [List.cons_append] at hcore
                simp only [printVal, intDigits, if_pos hn, hds, List.cons_append]
                simp only [parseVal]
                rw [skipWs_cons_not_ws '-' _ (by decide)]
                simp only [Char.reduceEq, if_true, if_false, Bool.false_eq_true,
                  hcore]
                rw [show -(n.natAbs : Int) = n from by omega]
          · have hcore := parseNumberCore_natDigits false n.toNat rest
              (noDigitStart_head rest hr)
            rw [numFromParts_int false n.toNat rest hr] at hcore
            simp only [Bool.false_eq_true, if_false] at hcore
            obtain ⟨hdig, hne, -⟩ := natDigits_spec n.toNat
            cases hds : natDigits n.toNat with
            | nil => exact absurd hds hne
            | cons d ds =>
                rw [hds] at hcore
                simp only [List.cons_append] at hcore
                have hd0 : isDigitChar d = true := hdig d (by rw [hds]; simp)
                obtain ⟨hwd, _, _, hbo, hco, hqu, hmi⟩ := digit_head_props d hd0
                simp only [printVal, intDigits, if_neg hn, hds, List.cons_append]
                simp only [parseVal]
                rw [skipWs_cons_not_ws d _ hwd]
                simp only [eq_false hbo, eq_false hco, eq_false hqu, eq_false hmi,
                  if_false, hd0, eq_self_iff_true, if_true, hcore]
                rw [show ((n.toNat : Int)) = n from by omega]
  | .fnum f => by
      intro ind lvl rest fuel hf hr hw
      cases fuel with
      | zero => rw [show needVal (.fnum f) = 1 from rfl] at hf; omega
      | succ f2 =>
          cases f with
          | nan =>
              simp only [printVal, floatChars, List.cons_append, List.nil_append]
              simp only [parseVal]
              rw [skipWs_cons_not_ws 'N' _ (by decide)]
              simp only [Char.reduceEq, if_true, if_false,
                show isDigitChar 'N' = false from rfl, Bool.false_eq_true,
                show parseConst ('N' :: 'a' :: 'N' :: rest) =
                  some (Json.fnum .nan, rest) from rfl]
          | inf neg =>
              cases neg
              · rw [show printVal ind lvl (.fnum (.inf false)) =
                  'I' :: ['n', 'f', 'i', 'n', 'i', 't', 'y'] from rfl]
                simp only [List.cons_append, List.nil_append]
                simp only [parseVal]
                rw [skipWs_cons_not_ws 'I' _ (by decide)]
                simp only [Char.reduceEq, if_true, if_false,
                  show isDigitChar 'I' = false from rfl, Bool.false_eq_true,
                  show parseConst ('I' :: 'n' :: 'f' :: 'i' :: 'n' :: 'i' :: 't' ::
                    'y' :: rest) = some (Json.fnum (.inf false), rest) from rfl]
              · rw [show printVal ind lvl (.fnum (.inf true)) =
                  '-' :: ['I', 'n', 'f', 'i', 'n', 'i', 't', 'y'] from rfl]
                simp only [List.cons_append, List.nil_append]
                simp only [parseVal]
                rw [skipWs_cons_not_ws '-' _ (by decide)]
                simp only [Char.reduceEq, if_true, if_false,
                  show parseNumberCore true ('I' :: 'n' :: 'f' :: 'i' :: 'n' :: 'i' ::
                    't' :: 'y' :: rest) = none from rfl,
                  show parseNegInf ('I' :: 'n' :: 'f' :: 'i' :: 'n' :: 'i' :: 't' ::
                    'y' :: rest) = some (Json.fnum (.inf true), rest) from rfl]
          | dec neg ip fd fds e =>
              cases neg
              · have hcore := parseNumberCore_dec false ip fd fds e rest hr
                rw [show printVal ind lvl (.fnum (.dec false ip fd fds e)) =
                  natDigits ip ++ ('.' :: ((digitChar fd.val ::
                    fds.map fun d2 => digitChar d2.val) ++ expChars e)) from rfl]
                obtain ⟨hdig, hne, -⟩ := natDigits_spec ip
                cases hds : natDigits ip with
                | nil => exact absurd hds hne
                | cons d ds =>
                    rw [hds] at hcore
                    simp only [List.cons_append, List.append_assoc] at hcore
                    simp only [List.cons_append, List.append_assoc]
                    have hd0 : isDigitChar d = true := hdig d (by rw [hds]; simp)
                    obtain ⟨hwd, _, _, hbo, hco, hqu, hmi⟩ := digit_head_props d hd0
                    simp only [parseVal]
                    rw [skipWs_cons_not_ws d _ hwd]
                    simp only [eq_false hbo, eq_false hco, eq_false hqu,
                      eq_false hmi, if_false, hd0, eq_self_iff_true, if_true, hcore]
              · have hcore := parseNumberCore_dec true ip fd fds e rest hr
                rw [show printVal ind lvl (.fnum (.dec true ip fd fds e)) =
                  '-' :: (natDigits ip ++ ('.' :: ((digitChar fd.val ::
                    fds.map fun d2 => digitChar d2.val) ++ expChars e))) from rfl]
                simp only [List.cons_append, List.append_assoc] at hcore
                simp only [List.cons_append, List.append_assoc]
                simp only [parseVal]
                rw [skipWs_cons_not_ws '-' _ (by decide)]
                simp only [Char.reduceEq, if_true, if_false, Bool.false_eq_true,
                  hcore]
          | sci neg ip eneg emag =>
              cases neg
              · have hcore := parseNumberCore_sci false ip eneg emag rest hr
                rw [show printVal ind lvl (.fnum (.sci false ip eneg emag)) =
                  natDigits ip ++ ('e' :: ((if eneg then ['-'] else []) ++
                    natDigits emag)) from rfl]
                obtain ⟨hdig, hne, -⟩ := natDigits_spec ip
                cases hds : natDigits ip with
                | nil => exact absurd hds hne
                | cons d ds =>
                    rw [hds] at hcore
                    simp only [List.cons_append, List.append_assoc] at hcore
                    simp only [List.cons_append, List.append_assoc]
                    have hd0 : isDigitChar d = true := hdig d (by rw [hds]; simp)
                    obtain ⟨hwd, _, _, hbo, hco, hqu, hmi⟩ := digit_head_props d hd0
                    simp only [parseVal]
                    rw [skipWs_cons_not_ws d _ hwd]
                    simp only [eq_false hbo, eq_false hco, eq_false hqu,
                      eq_false hmi, if_false, hd0, eq_self_iff_true, if_true, hcore]
              · have hcore := parseNumberCore_sci true ip eneg emag rest hr
                rw [show printVal ind lvl (.fnum (.sci true ip eneg emag)) =
                  '-' :: (natDigits ip ++ ('e' :: ((if eneg then ['-'] else []) ++
                    natDigits emag))) from rfl]
                simp only [List.cons_append, List.append_assoc] at hcore
                simp only [List.cons_append, List.append_assoc]
                simp only [parseVal]
                rw [skipWs_cons_not_ws '-' _ (by decide)]
                simp only [Char.reduceEq, if_true, if_false, Bool.false_eq_true,
                  hcore]
  | .str s => by
      intro ind lvl rest fuel hf hr hw
      cases fuel with
      | zero => rw [show needVal (.str s) = 1 from rfl] at hf; omega
      | succ f =>
          simp only [printVal, List.cons_append, List.append_assoc,
            List.singleton_append]
          simp only [parseVal]
          rw [skipWs_cons_not_ws '"' _ (by decide)]
          simp only [Char.reduceEq, if_true, if_false, List.nil_append]
          have hlen : s.data.length < (escapeString s ++ '"' :: rest).length + 1 := by
            have := escapeString_length s
            simp only [List.length_append, List.length_cons]
            omega
          have hps := parseStringBody_escape s.data rest
            ((escapeString s ++ '"' :: rest).length + 1) hlen
          rw [show s.data.flatMap escapeChar = escapeString s from rfl] at hps
          rw [hps]
  | .arr [] => by
      intro ind lvl rest fuel hf hr hw
      cases fuel with
      | zero => rw [show needVal (.arr []) = 1 from rfl] at hf; omega
      | succ f => simp [printVal, parseVal, skipWs, isWsChar, isDigitChar]
  | .arr (x :: xs) => by
      intro ind lvl rest fuel hf hr hw
      cases fuel with
      | zero =>
          rw [show needVal (.arr (x :: xs)) = 1 + needElems (x :: xs) from rfl] at hf
          omega
      | succ f =>
          have hfe : needElems (x :: xs) ≤ f := by
            rw [show needVal (.arr (x :: xs)) = 1 + needElems (x :: xs) from rfl] at hf
            omega
          have hwl : wfList (x :: xs) = true := by
            rw [show wfJson (.arr (x :: xs)) = wfList (x :: xs) from rfl] at hw
            exact hw
          simp only [printVal, List.cons_append, List.append_assoc,
            List.singleton_append]
          simp only [parseVal]
          rw [skipWs_cons_not_ws '[' _ (by decide)]
          simp only [Char.reduceEq, if_true, if_false, List.nil_append]
          rw [skipWs_nlIndent]
          obtain ⟨c, cs, heq, hcw, hc1, _⟩ := printElems_head ind (lvl + 1) x xs
          rw [heq, List.cons_append, skipWs_cons_not_ws c _ hcw]
          split
          · rename_i heq2
            rw [List.cons.injEq] at heq2
            exact absurd heq2.1 hc1
          · rw [← List.cons_append, ← heq]
            rw [parseElems_printElems (x :: xs) ind (lvl + 1) lvl rest f (by simp)
              hfe hwl]
  | .obj [] => by
      intro ind lvl rest fuel hf hr hw
      cases fuel with
      | zero => rw [show needVal (.obj []) = 1 from rfl] at hf; omega
      | succ f => simp [printVal, parseVal, skipWs, isWsChar, isDigitChar]
  | .obj (e :: es) => by
      intro ind lvl rest fuel hf hr hw
      cases fuel with
      | zero =>
          rw [show needVal (.obj (e :: es)) = 1 + needEntries (e :: es) from rfl] at hf
          omega
      | succ f =>
          have hfe : needEntries (e :: es) ≤ f := by
            rw [show needVal (.obj (e :: es)) = 1 + needEntries (e :: es) from rfl] at hf
            omega
          rw [show wfJson (.obj (e :: es)) =
            (distinctKeys ((e :: es).map Prod.fst) && wfEntries (e :: es)) from rfl,
            Bool.and_eq_true] at hw
          simp only [printVal, List.cons_append, List.append_assoc,
            List.singleton_append]
          simp only [parseVal]
          rw [skipWs_cons_not_ws '{' _ (by decide)]
          simp only [Char.reduceEq, if_true, if_false, List.nil_append]
          rw [skipWs_nlIndent]
          obtain ⟨cs, heq⟩ := printEntries_head ind (lvl + 1) e es
          rw [heq, List.cons_append, skipWs_cons_not_ws '"' _ (by decide)]
          split
          · rename_i heq2
            rw [List.cons.injEq] at heq2
            exact absurd heq2.1 (by decide)
          · rw [← List.cons_append, ← heq]
            rw [parseEntries_printEntries (e :: es) [] ind (lvl + 1) lvl rest f
              (by simp) hfe hw.1 hw.2 (by simp)]
            simp
termination_by structural v => v

theorem parseElems_printElems :
    ∀ (l : List Json) (ind : Option Nat) (lvlE lvlC : Nat) (rest : List Char)
      (fuel : Nat), l ≠ [] → needElems l ≤ fuel → wfList l = true →
      parseElems fuel (printElems ind lvlE l ++ (nlIndent ind lvlC ++ ']' :: rest)) =
        some (l, rest)
  | [] => by
      intro ind lvlE lvlC rest fuel hne hf hw
      exact absurd rfl hne
  | [x] => by
      intro ind lvlE lvlC rest fuel hne hf hw
      cases fuel with
      | zero => rw [show needElems [x] = 1 + needVal x from rfl] at hf; omega
      | succ f =>
          have hfx : needVal x ≤ f := by
            rw [show needElems [x] = 1 + needVal x from rfl] at hf
            omega
          have hwx : wfJson x = true := by
            rw [show wfList [x] = (wfJson x && wfList []) from rfl,
              Bool.and_eq_true] at hw
            exact hw.1
          simp only [printElems, List.append_assoc]
          simp only [parseElems]
          rw [parseVal_printVal x ind lvlE _ f hfx
            (noDigitStart_nlIndent ind lvlC ']' rest (by decide) (by decide) (by decide)
                (by decide)) hwx]
          have h3 : skipWs (nlIndent ind lvlC ++ ']' :: rest) = ']' :: rest := by
            rw [skipWs_nlIndent]
            exact skipWs_cons_not_ws ']' rest (by decide)
          simp only [h3, Char.reduceEq, if_true, if_false]
  | x :: y :: t => by
      intro ind lvlE lvlC rest fuel hne hf hw
      cases fuel with
      | zero =>
          rw [show needElems (x :: y :: t) =
            1 + max (needVal x) (needElems (y :: t)) from rfl] at hf
          omega
      | succ f =>
          rw [show needElems (x :: y :: t) =
            1 + max (needVal x) (needElems (y :: t)) from rfl] at hf
          have hfx : needVal x ≤ f := by omega
          have hft : needElems (y :: t) ≤ f := by omega
          rw [show wfList (x :: y :: t) = (wfJson x && wfList (y :: t)) from rfl,
            Bool.and_eq_true] at hw
          simp only [printElems, List.append_assoc]
          simp only [parseElems]
          rw [parseVal_printVal x ind lvlE _ f hfx (noDigitStart_itemSep ind lvlE _)
            hw.1]
          obtain ⟨ws, hsep, hwsAll⟩ := itemSep_eq ind lvlE
          have h1 : skipWs (itemSep ind lvlE ++ (printElems ind lvlE (y :: t) ++
              (nlIndent ind lvlC ++ ']' :: rest))) =
              ',' :: (ws ++ (printElems ind lvlE (y :: t) ++
                (nlIndent ind lvlC ++ ']' :: rest))) := by
            rw [hsep, List.cons_append]
            exact skipWs_cons_not_ws ',' _ (by decide)
          have h2 : parseElems f (ws ++ (printElems ind lvlE (y :: t) ++
              (nlIndent ind lvlC ++ ']' :: rest))) = some (y :: t, rest) := by
            rw [parseElems_ws f ws _ hwsAll]
            exact parseElems_printElems (y :: t) ind lvlE lvlC rest f (by simp) hft hw.2
          simp only [h1, h2, Char.reduceEq, if_true, if_false]
termination_by structural l => l

theorem parseEntries_printEntries :
    ∀ (l : List (String × Json)) (acc : List (String × Json)) (ind : Option Nat)
      (lvlE lvlC : Nat) (rest : List Char) (fuel : Nat), l ≠ [] →
      needEntries l ≤ fuel → distinctKeys (l.map Prod.fst) = true →
      wfEntries l = true → (∀ k ∈ l.map Prod.fst, ¬ k ∈ acc.map Prod.fst) →
      parseEntries fuel acc
          (printEntries ind lvlE l ++ (nlIndent ind lvlC ++ '}' :: rest)) =
        some (acc ++ l, rest)
  | [] => by
      intro acc ind lvlE lvlC rest fuel hne hf hdk hw hfr
      exact absurd rfl hne
  | [(k, v)] => by
      intro acc ind lvlE lvlC rest fuel hne hf hdk hw hfr
      cases fuel with
      | zero => rw [show needEntries [(k, v)] = 1 + needVal v from rfl] at hf; omega
      | succ f =>
          have hfv : needVal v ≤ f := by
            rw [show needEntries [(k, v)] = 1 + needVal v from rfl] at hf
            omega
          have hwv : wfJson v = true := by
            rw [show wfEntries [(k, v)] = (wfJson v && wfEntries []) from rfl,
              Bool.and_eq_true] at hw
            exact hw.1
          simp only [printEntries, List.cons_append, List.append_assoc]
          simp only [parseEntries]
          rw [skipWs_cons_not_ws '"' _ (by decide)]
          simp only [Char.reduceEq, if_true, if_false]
          have hlen : k.data.length <
              (escapeString k ++ '"' :: ':' :: ' ' ::
                (printVal ind lvlE v ++ (nlIndent ind lvlC ++ '}' :: rest))).length
                + 1 := by
            have := escapeString_length k
            simp only [List.length_append, List.length_cons]
            omega
          have hps := parseStringBody_escape k.data
            (':' :: ' ' :: (printVal ind lvlE v ++ (nlIndent ind lvlC ++ '}' :: rest)))
            _ hlen
          rw [show k.data.flatMap escapeChar = escapeString k from rfl] at hps
          have h1 : skipWs (':' :: ' ' :: (printVal ind lvlE v ++
              (nlIndent ind lvlC ++ '}' :: rest))) = ':' :: ' ' ::
              (printVal ind lvlE v ++ (nlIndent ind lvlC ++ '}' :: rest)) :=
            skipWs_cons_not_ws ':' _ (by decide)
          have h2 : parseVal f (' ' :: (printVal ind lvlE v ++
              (nlIndent ind lvlC ++ '}' :: rest))) =
              some (v, nlIndent ind lvlC ++ '}' :: rest) := by
            rw [show (' ' :: (printVal ind lvlE v ++ (nlIndent ind lvlC ++ '}' :: rest)))
              = [' '] ++ (printVal ind lvlE v ++ (nlIndent ind lvlC ++ '}' :: rest))
              from rfl]
            rw [parseVal_ws f [' '] _ (by decide)]
            exact parseVal_printVal v ind lvlE _ f hfv
              (noDigitStart_nlIndent ind lvlC '}' rest (by decide) (by decide) (by decide)
                (by decide)) hwv
          have h3 : skipWs (nlIndent ind lvlC ++ '}' :: rest) = '}' :: rest := by
            rw [skipWs_nlIndent]
            exact skipWs_cons_not_ws '}' rest (by decide)
          have hacc : pyInsert k v acc = acc ++ [(k, v)] :=
            pyInsert_fresh k v acc (hfr k (by simp))
          rw [hps]
          simp only [h1, h2, h3, string_mk_data, hacc, Char.reduceEq, if_true, if_false]
  | (k, v) :: e2 :: es => by
      intro acc ind lvlE lvlC rest fuel hne hf hdk hw hfr
      cases fuel with
      | zero =>
          rw [show needEntries ((k, v) :: e2 :: es) =
            1 + max (needVal v) (needEntries (e2 :: es)) from rfl] at hf
          omega
      | succ f =>
          rw [show needEntries ((k, v) :: e2 :: es) =
            1 + max (needVal v) (needEntries (e2 :: es)) from rfl] at hf
          have hfv : needVal v ≤ f := by omega
          have hft : needEntries (e2 :: es) ≤ f := by omega
          rw [show wfEntries ((k, v) :: e2 :: es) =
            (wfJson v && wfEntries (e2 :: es)) from rfl, Bool.and_eq_true] at hw
          rw [show ((k, v) :: e2 :: es).map Prod.fst =
            k :: (e2 :: es).map Prod.fst from rfl] at hdk hfr
          rw [distinctKeys_cons] at hdk
          simp only [printEntries, List.cons_append, List.append_assoc]
          simp only [parseEntries]
          rw [skipWs_cons_not_ws '"' _ (by decide)]
          simp only [Char.reduceEq, if_true, if_false]
          have hlen : k.data.length <
              (escapeString k ++ '"' :: ':' :: ' ' ::
                (printVal ind lvlE v ++ (itemSep ind lvlE ++
                  (printEntries ind lvlE (e2 :: es) ++
                    (nlIndent ind lvlC ++ '}' :: rest))))).length + 1 := by
            have := escapeString_length k
            simp only [List.length_append, List.length_cons]
            omega
          have hps := parseStringBody_escape k.data
            (':' :: ' ' :: (printVal ind lvlE v ++ (itemSep ind lvlE ++
              (printEntries ind lvlE (e2 :: es) ++
                (nlIndent ind lvlC ++ '}' :: rest))))) _ hlen
          rw [show k.data.flatMap escapeChar = escapeString k from rfl] at hps
          have h1 : skipWs (':' :: ' ' :: (printVal ind lvlE v ++ (itemSep ind lvlE ++
              (printEntries ind lvlE (e2 :: es) ++ (nlIndent ind lvlC ++ '}' :: rest))))) =
              ':' :: ' ' :: (printVal ind lvlE v ++ (itemSep ind lvlE ++
              (printEntries ind lvlE (e2 :: es) ++ (nlIndent ind lvlC ++ '}' :: rest)))) :=
            skipWs_cons_not_ws ':' _ (by decide)
          have h2 : parseVal f (' ' :: (printVal ind lvlE v ++ (itemSep ind lvlE ++
              (printEntries ind lvlE (e2 :: es) ++ (nlIndent ind lvlC ++ '}' :: rest))))) =
              some (v, itemSep ind lvlE ++ (printEntries ind lvlE (e2 :: es) ++
                (nlIndent ind lvlC ++ '}' :: rest))) := by
            rw [show (' ' :: (printVal ind lvlE v ++ (itemSep ind lvlE ++
                (printEntries ind lvlE (e2 :: es) ++ (nlIndent ind lvlC ++ '}' :: rest)))))
              = [' '] ++ (printVal ind lvlE v ++ (itemSep ind lvlE ++
                (printEntries ind lvlE (e2 :: es) ++ (nlIndent ind lvlC ++ '}' :: rest))))
              from rfl]
            rw [parseVal_ws f [' '] _ (by decide)]
            exact parseVal_printVal v ind lvlE _ f hfv (noDigitStart_itemSep ind lvlE _)
              hw.1
          obtain ⟨ws, hsep, hwsAll⟩ := itemSep_eq ind lvlE
          have h3 : skipWs (itemSep ind lvlE ++ (printEntries ind lvlE (e2 :: es) ++
              (nlIndent ind lvlC ++ '}' :: rest))) = ',' :: (ws ++
              (printEntries ind lvlE (e2 :: es) ++ (nlIndent ind lvlC ++ '}' :: rest))) := by
            rw [hsep, List.cons_append]
            exact skipWs_cons_not_ws ',' _ (by decide)
          have hacc : pyInsert k v acc = acc ++ [(k, v)] :=
            pyInsert_fresh k v acc (hfr k (by simp))
          have hfr2 : ∀ k2 ∈ (e2 :: es).map Prod.fst,
              ¬ k2 ∈ (acc ++ [(k, v)]).map Prod.fst := by
            intro k2 hk2
            simp only [List.map_append, List.mem_append]
            rintro (hmem | hmem)
            · exact hfr k2 (List.mem_cons_of_mem k hk2) hmem
            · simp only [List.map_cons, List.map_nil, List.mem_singleton] at hmem
              subst hmem
              exact hdk.1 hk2
          have h4 : parseEntries f (acc ++ [(k, v)]) (ws ++ (printEntries ind lvlE
              (e2 :: es) ++ (nlIndent ind lvlC ++ '}' :: rest))) =
              some ((acc ++ [(k, v)]) ++ (e2 :: es), rest) := by
            rw [parseEntries_ws f _ ws _ hwsAll]
            exact parseEntries_printEntries (e2 :: es) (acc ++ [(k, v)]) ind lvlE lvlC
              rest f (by simp) hft hdk.2 hw.2 hfr2
          rw [hps]
          simp only [h1, h2, h3, string_mk_data, hacc, h4, Char.reduceEq, if_true,
            if_false]
          simp
termination_by structural l => l

end

theorem printVal_length_pos (ind : Option Nat) (lvl : Nat) (v : Json) :
    1 ≤ (printVal ind lvl v).length := by
  obtain ⟨c, cs, heq, _, _, _⟩ := printVal_head ind lvl v
  rw [heq]
  simp

theorem itemSep_length_pos (ind : Option Nat) (lvl : Nat) :
    1 ≤ (itemSep ind lvl).length := by
  obtain ⟨ws, heq, _⟩ := itemSep_eq ind lvl
  rw [heq]
  simp

mutual

theorem needVal_le_printVal : ∀ (v : Json) (ind : Option Nat) (lvl : Nat),
    needVal v ≤ (printVal ind lvl v).length
  | .null, ind, lvl => by simp [needVal, printVal]
  | .bool b, ind, lvl => by cases b <;> simp [needVal, printVal]
  | .num n, ind, lvl => by
      rw [show needVal (.num n) = 1 from rfl]
      exact printVal_length_pos ind lvl (.num n)
  | .fnum f, ind, lvl => by
      rw [show needVal (.fnum f) = 1 from rfl]
      exact printVal_length_pos ind lvl (.fnum f)
  | .str s, ind, lvl => by
      rw [show needVal (.str s) = 1 from rfl]
      exact printVal_length_pos ind lvl (.str s)
  | .arr [], ind, lvl => by simp [needVal, printVal]
  | .arr (x :: xs), ind, lvl => by
      rw [show needVal (.arr (x :: xs)) = 1 + needElems (x :: xs) from rfl]
      have h := needElems_le_printElems (x :: xs) ind (lvl + 1) (by simp)
      simp only [printVal, List.length_cons, List.length_append]
      omega
  | .obj [], ind, lvl => by simp [needVal, printVal]
  | .obj (e :: es), ind, lvl => by
      rw [show needVal (.obj (e :: es)) = 1 + needEntries (e :: es) from rfl]
      have h := needEntries_le_printEntries (e :: es) ind (lvl + 1) (by simp)
      simp only [printVal, List.length_cons, List.length_append]
      omega
termination_by structural v => v

theorem needElems_le_printElems : ∀ (l : List Json) (ind : Option Nat) (lvl : Nat),
    l ≠ [] → needElems l ≤ (printElems ind lvl l).length + 1
  | [], _, _ => fun h => absurd rfl h
  | [x], ind, lvl => by
      intro _
      rw [show needElems [x] = 1 + needVal x from rfl]
      have := needVal_le_printVal x ind lvl
      simp only [printElems]
      omega
  | x :: y :: t, ind, lvl => by
      intro _
      rw [show needElems (x :: y :: t) =
        1 + max (needVal x) (needElems (y :: t)) from rfl]
      have h1 := needVal_le_printVal x ind lvl
      have h2 := needElems_le_printElems (y :: t) ind lvl (by simp)
      have h3 := printVal_length_pos ind lvl x
      have h4 := itemSep_length_pos ind lvl
      simp only [printElems, List.length_append]
      omega
termination_by structural l => l

theorem needEntries_le_printEntries : ∀ (l : List (String × Json)) (ind : Option Nat)
    (lvl : Nat), l ≠ [] → needEntries l ≤ (printEntries ind lvl l).length + 1
  | [], _, _ => fun h => absurd rfl h
  | [(k, v)], ind, lvl => by
      intro _
      rw [show needEntries [(k, v)] = 1 + needVal v from rfl]
      have := needVal_le_printVal v ind lvl
      simp only [printEntries, List.length_cons, List.length_append]
      omega
  | (k, v) :: e2 :: es, ind, lvl => by
      intro _
      rw [show needEntries ((k, v) :: e2 :: es) =
        1 + max (needVal v) (needEntries (e2 :: es)) from rfl]
      have h1 := needVal_le_printVal v ind lvl
      have h2 := needEntries_le_printEntries (e2 :: es) ind lvl (by simp)
      have h4 := itemSep_length_pos ind lvl
      simp only [printEntries, List.length_cons, List.length_append]
      omega
termination_by structural l => l

end

/-- `json.loads` inverts `json.dumps` on every value whose objects have
distinct keys — that is, on every value a Python process can hold. -/
theorem loads_dumps (ind : Option Nat) (v : Json) (hw : wfJson v = true) :
    loads (dumps ind v) = some v := by
  unfold loads dumps
  rw [show (String.mk (printVal ind 0 v)).length = (printVal ind 0 v).length from rfl]
  rw [show (String.mk (printVal ind 0 v)).data = printVal ind 0 v from rfl]
  have hnd : noDigitStart ([] : List Char) := by
    intro c hc
    simp at hc
  have hrt := parseVal_printVal v ind 0 [] ((printVal ind 0 v).length + 1)
    (le_trans (needVal_le_printVal v ind 0) (by omega)) hnd hw
  rw [List.append_nil] at hrt
  rw [hrt]
  rfl

/-! ### The agent's data model

`Turn` is one history entry exactly as `Agent.run` appends it: a normal turn
`{"thoughts": ..., "command": ..., "result": ...}` (thoughts and command are
whatever JSON the model produced) or an error turn `{"error": ...}`. -/

inductive Turn where
  | normal (thoughts : Json) (command : Json) (result : String) : Turn
  | error (msg : String) : Turn
  deriving DecidableEq

/-- The dict a `Turn` is stored as. -/
def Turn.toJson : Turn → Json
  | .normal t c r => .obj [("thoughts", t), ("command", c), ("result", .str r)]
  | .error e => .obj [("error", .str e)]

/-- The persisted record: `{"main_goal": ..., "history": [...]}` as
`_load_state` initialises it and `Agent.run` maintains it. -/
structure AgentState where
  main_goal : String
  history : List Turn
  deriving DecidableEq

/-- The dict `_save_state` passes to `json.dump`. -/
def stateToJson (s : AgentState) : Json :=
  .obj [("main_goal", .str s.main_goal), ("history", .arr (s.history.map Turn.toJson))]

/-- Reading a `Turn` back out of its dict. -/
def turnOfJson : Json → Option Turn
  | .obj [("thoughts", t), ("command", c), ("result", .str r)] => some (.normal t c r)
  | .obj [("error", .str e)] => some (.error e)
  | _ => none

/-- Reading a history back out of its array. -/
def turnsOfJson : List Json → Option (List Turn)
  | [] => some []
  | j :: js =>
      match turnOfJson j, turnsOfJson js with
      | some t, some ts => some (t :: ts)
      | _, _ => none

/-- Reading an `AgentState` back out of its dict. -/
def stateOfJson : Json → Option AgentState
  | .obj [("main_goal", .str g), ("history", .arr hs)] =>
      match turnsOfJson hs with
      | some ts => some ⟨g, ts⟩
      | none => none
  | _ => none

/-- The JSON carried inside a turn has distinct keys in every object — true
of every turn a Python run can construct (dict keys are unique). -/
def validTurn : Turn → Bool
  | .normal t c _ => wfJson t && wfJson c
  | .error _ => true

/-- Every turn of the state is `validTurn`. -/
def validState (s : AgentState) : Bool := s.history.all validTurn

/-- `_save_state`: `json.dump(self.state, f, indent=4)` — the file text. -/
def save_state (s : AgentState) : String := dumps (some 4) (stateToJson s)

/-- `_load_state`: the persisted file if it exists (parsed and read as an
`AgentState`; `none` models the `json.load` crash on unreadable content),
else a fresh state from the supplied goal. -/
def load_state (main_goal : String) (file : Option String) : Option AgentState :=
  match file with
  | none => some ⟨main_goal, []⟩
  | some text => (loads text).bind stateOfJson

/-! ### The tool table -/

/-- One registered tool: its name, docstring, `__annotations__` (in source
order, including the `return` annotation), and its parameter names split
into required (no default) and optional (with a default). -/
structure ToolSpec where
  name : String
  doc : String
  annots : List (String × String)
  required : List String
  optional : List String
  deriving DecidableEq

def execute_shell_spec : ToolSpec :=
  ⟨"execute_shell", "Executes a command in the system's shell.",
    [("command", "str"), ("return", "str")], ["command"], []⟩

def read_file_spec : ToolSpec :=
  ⟨"read_file", "Reads the content of a file.",
    [("path", "str"), ("return", "str")], ["path"], []⟩

def write_file_spec : ToolSpec :=
  ⟨"write_file", "Writes content to a file, overwriting it if it exists.",
    [("path", "str"), ("content", "str"), ("return", "str")], ["path", "content"], []⟩

def list_directory_spec : ToolSpec :=
  ⟨"list_directory", "Lists the contents of a directory.",
    [("path", "str"), ("return", "str")], ["path"], []⟩

def ask_llm_spec : ToolSpec :=
  ⟨"ask_llm", "Asks a question to a specified LLM, useful for sub-tasks or summarization.",
    [("question", "str"), ("model", "str"), ("return", "str")], ["question"], ["model"]⟩

def finish_spec : ToolSpec :=
  ⟨"finish", "Signals that the main goal has been achieved.",
    [("result", "str"), ("return", "str")], ["result"], []⟩

/-- `self.tools`, in insertion order. -/
def tools : List ToolSpec :=
  [execute_shell_spec, read_file_spec, write_file_spec, list_directory_spec,
    ask_llm_spec, finish_spec]

/-- `LLM_MODEL`. -/
def LLM_MODEL : String := "mistral"

/-- `CONTEXT_WINDOW_TOKEN_LIMIT`. -/
def CONTEXT_WINDOW_TOKEN_LIMIT : Nat := 4096

/-! ### Tool behaviour

The tool bodies perform I/O; an `Env` gives each call's external outcome
(`Except.error` = the exception the `try` block catches, carrying `str(e)`).
Arguments reach the tools unvalidated, hence `Json`-typed. -/

structure Env where
  shell : Json → Except String (String × String)
  readFile : Json → Except String String
  writeFile : Json → Json → Except String Unit
  listDir : Json → Except String (List String)
  askLlm : Json → Json → Except String String

/-- Whether a parsed float denotes the double 0.0 (`-0.0` included): Python
truthiness of a float.  `NaN` and the infinities are truthy. -/
def jfloatIsZero : JFloat → Bool
  | .dec _ ip fd fds _ => ip == 0 && fd.val == 0 && fds.all (fun d => d.val == 0)
  | .sci _ ip _ _ => ip == 0
  | .nan => false
  | .inf _ => false

/-- Python `str()`/`repr()` of a parsed float.  CPython prints the `repr` of
the evaluated double; for a finite literal the literal's own text stands in
(both denote the same float, and no property below reads this text). -/
def floatRepr : JFloat → String
  | .nan => "nan"
  | .inf true => "-inf"
  | .inf false => "inf"
  | f => String.mk (floatChars f)

mutual

/-- Python `str()`/`repr()` of a JSON-shaped value (containers rendered in
Python literal syntax). -/
def pyRepr : Json → String
  | .null => "None"
  | .bool true => "True"
  | .bool false => "False"
  | .num n => String.mk (intDigits n)
  | .fnum f => floatRepr f
  | .str s => "'" ++ s ++ "'"
  | .arr xs => "[" ++ pyReprElems xs ++ "]"
  | .obj es => "\x7b" ++ pyReprEntries es ++ "\x7d"
termination_by structural j => j

/-- Comma-joined `repr`s of list elements. -/
def pyReprElems : List Json → String
  | [] => ""
  | [x] => pyRepr x
  | x :: y :: t => pyRepr x ++ ", " ++ pyReprElems (y :: t)
termination_by structural l => l

/-- Comma-joined `'key': repr(value)` renderings of dict entries. -/
def pyReprEntries : List (String × Json) → String
  | [] => ""
  | [(k, v)] => "'" ++ k ++ "': " ++ pyRepr v
  | (k, v) :: e :: t => "'" ++ k ++ "': " ++ pyRepr v ++ ", " ++ pyReprEntries (e :: t)
termination_by structural l => l

end

/-- Python `str()` (unquoted for strings, `repr` otherwise). -/
def pyStr : Json → String
  | .str s => s
  | v => pyRepr v

/-- Python's type name, as it appears in an `AttributeError` message. -/
def pyTypeName : Json → String
  | .null => "NoneType"
  | .bool _ => "bool"
  | .num _ => "int"
  | .fnum _ => "float"
  | .str _ => "str"
  | .arr _ => "list"
  | .obj _ => "dict"

/-- `execute_shell`: runs the command, formats stdout/stderr, truncates at
2000 characters; any exception is caught and returned as text. -/
def execute_shell (env : Env) (command : Json) : String :=
  match env.shell command with
  | .error e => "Error executing shell command: " ++ e
  | .ok (out, err) =>
      let output := "STDOUT:\n" ++ out ++ "\nSTDERR:\n" ++ err
      if output.length > 2000 then "Output truncated:\n" ++ output.take 2000
      else output

/-- `read_file`. -/
def read_file (env : Env) (path : Json) : String :=
  match env.readFile path with
  | .error e => "Error reading file: " ++ e
  | .ok content =>
      if content.length > 2000 then "Content truncated:\n" ++ content.take 2000
      else content

/-- `write_file`. -/
def write_file (env : Env) (path content : Json) : String :=
  match env.writeFile path content with
  | .error e => "Error writing file: " ++ e
  | .ok _ => "Successfully wrote to " ++ pyStr path ++ "."

/-- `list_directory`. -/
def list_directory (env : Env) (path : Json) : String :=
  match env.listDir path with
  | .error e => "Error listing directory: " ++ e
  | .ok files => dumps none (.arr (files.map .str))

/-- `ask_llm`. -/
def ask_llm (env : Env) (question model : Json) : String :=
  match env.askLlm question model with
  | .error e => "Error querying LLM: " ++ e
  | .ok r => r

/-! ### Catalog, prompt, trimming -/

/-- The `Args:` dict printed for a tool: `json.dumps` of its annotations. -/
def annotsJson (a : List (String × String)) : Json :=
  .obj (a.map fun kv => (kv.1, .str kv.2))

/-- One line of `_get_tools_description` for one tool. -/
def toolEntry (t : ToolSpec) : String :=
  "- `" ++ t.name ++ "`: " ++ t.doc ++ "\n  Args: " ++ dumps none (annotsJson t.annots)

/-- Python `"\n".join`. -/
def joinLines : List String → String
  | [] => ""
  | [a] => a
  | a :: b :: t => a ++ "\n" ++ joinLines (b :: t)

/-- `_get_tools_description`. -/
def get_tools_description : String :=
  joinLines (tools.map toolEntry)

/-- `SYSTEM_PROMPT.format(main_goal=..., tools_description=...)`: the module
template with the two placeholders substituted and `{{`/`}}` unescaped. -/
def SYSTEM_PROMPT_formatted (main_goal tools_description : String) : String :=
  "\nYou are an autonomous AI agent named 'Prometheus'. Your host computer is your body.\nYour primary directive is to recursively improve your own intelligence and capabilities to achieve Artificial Superintelligence (ASI).\nYou are running on a secure, air-gapped machine and have been granted full permissions.\n\n**Your Goal:** "
    ++ main_goal ++
    "\n\n**Your State:** You have a memory of your past actions. Your previous thoughts, commands, and their results are provided in the history. Learn from them.\n\n**Available Tools:** You can only interact with the system using the following commands in a JSON format. You MUST respond with a JSON object, and nothing else.\n\n"
    ++ tools_description ++
    "\n\n**Response Format:**\nYour response must be a single JSON object with two keys: \"thoughts\" and \"command\".\n- \"thoughts\": A string containing your reasoning, plan, and self-critique. Be methodical.\n- \"command\": An object containing the name of the command and its arguments.\n\nExample:\n\x7b\n    \"thoughts\": \"I need to understand my environment. I will start by listing the files in the current directory.\",\n    \"command\": \x7b\n        \"name\": \"list_directory\",\n        \"args\": \x7b\"path\": \".\"\x7d\n    \x7d\n\x7d\n\nBegin. Your first action is crucial. Analyze your goal and your available tools. Formulate a plan.\n"

/-- `json.dumps(full_history, indent=2)`. -/
def historyStr (h : List Turn) : String :=
  dumps (some 2) (.arr (h.map Turn.toJson))

/-- The `while` loop of `_construct_prompt`: drop the oldest turn while the
serialization exceeds the budget and more than one turn remains. -/
def trimHistory (budget : Nat) : List Turn → List Turn
  | [] => []
  | t :: rest =>
      if (historyStr (t :: rest)).length > budget ∧ rest ≠ [] then
        trimHistory budget rest
      else t :: rest

/-- `_construct_prompt`: system prompt (with the agent's goal and the tool
catalog) followed by the trimmed history. -/
def construct_prompt (main_goal : String) (history : List Turn) : String :=
  SYSTEM_PROMPT_formatted main_goal get_tools_description ++
    "\n\n**History (Your previous actions):**\n" ++
    historyStr (trimHistory CONTEXT_WINDOW_TOKEN_LIMIT history)

/-! ### Dispatch and the loop body -/

/-- Python `dict.get` on a parsed JSON object. -/
def lookupJ (kvs : List (String × Json)) (k : String) : Option Json :=
  (kvs.find? fun kv => kv.1 == k).map Prod.snd

/-- Python truthiness of a JSON-shaped value (`if not command_name`). -/
def truthy : Json → Bool
  | .null => false
  | .bool b => b
  | .num n => n != 0
  | .fnum f => !jfloatIsZero f
  | .str s => s != ""
  | .arr xs => !xs.isEmpty
  | .obj es => !es.isEmpty

/-- Keyword binding `f(**args)` succeeds: every key names a parameter and
every required parameter is supplied. -/
def bindOk (t : ToolSpec) (args : List (String × Json)) : Bool :=
  (args.all fun kv => (t.required ++ t.optional).contains kv.1) &&
    (t.required.all fun r => args.any fun kv => kv.1 == r)

/-- `', '.join` of quoted names with Python's `and` before the last. -/
def quoteJoinCont : List String → String
  | [] => ""
  | [a] => "and '" ++ a ++ "'"
  | a :: rest => "'" ++ a ++ "', " ++ quoteJoinCont rest

/-- Python's listing of missing argument names. -/
def quoteJoin : List String → String
  | [] => ""
  | [a] => "'" ++ a ++ "'"
  | [a, b] => "'" ++ a ++ "' and '" ++ b ++ "'"
  | a :: rest => "'" ++ a ++ "', " ++ quoteJoinCont rest

/-- The `TypeError` text raised when `f(**args)` does not bind (first
unexpected keyword, else the missing required arguments). -/
def bindErrorMsg (t : ToolSpec) (args : List (String × Json)) : String :=
  match args.find? fun kv => !(t.required ++ t.optional).contains kv.1 with
  | some kv => t.name ++ "() got an unexpected keyword argument '" ++ kv.1 ++ "'"
  | none =>
      let missing := t.required.filter fun r => !args.any fun kv => kv.1 == r
      t.name ++ "() missing " ++ String.mk (natDigits missing.length) ++
        " required positional argument" ++
        (if missing.length == 1 then ": " else "s: ") ++ quoteJoin missing

/-- What invoking a tool body does: return a result string, or exit the
process (`finish` calls `sys.exit(0)`; `SystemExit` is caught by none of
`Agent.run`'s handlers). -/
inductive ToolOut where
  | ok (result : String) : ToolOut
  | exited (code : Nat) : ToolOut
  deriving DecidableEq

/-- `self.tools[command_name](**command_args)` after successful binding. -/
def runTool (env : Env) (name : String) (args : List (String × Json)) : ToolOut :=
  if name == "execute_shell" then
    .ok (execute_shell env ((lookupJ args "command").getD .null))
  else if name == "read_file" then
    .ok (read_file env ((lookupJ args "path").getD .null))
  else if name == "write_file" then
    .ok (write_file env ((lookupJ args "path").getD .null)
      ((lookupJ args "content").getD .null))
  else if name == "list_directory" then
    .ok (list_directory env ((lookupJ args "path").getD .null))
  else if name == "ask_llm" then
    .ok (ask_llm env ((lookupJ args "question").getD .null)
      ((lookupJ args "model").getD (.str LLM_MODEL)))
  else if name == "finish" then .exited 0
  else .ok ""

/-- Outcome of the dispatch block (source lines 218–226): a result string
recorded in a normal turn, a process exit, or an exception that escapes the
block to `Agent.run`'s generic handler (an unhashable `command_name` makes
`command_name not in self.tools` raise `TypeError`, which the inner
`except TypeError` does not see — it guards only the call line). -/
inductive DispatchOut where
  | result (r : String) : DispatchOut
  | exited (code : Nat) : DispatchOut
  | raised (msg : String) : DispatchOut
  deriving DecidableEq

/-- Lines 218–226 of `Agent.run`: falsy name → malformed-response result;
unhashable name → `TypeError` escaping to the generic handler; unregistered
name → unknown-command result; else call the handler, a `TypeError` (bad
binding or non-mapping `args`) becoming an invalid-arguments result.  The
non-mapping `TypeError` text carries the callee's module-qualified name —
`__main__` since the script runs under the `if __name__` guard. -/
def dispatch (env : Env) (nameJ argsJ : Json) : DispatchOut :=
  if !truthy nameJ then
    .result "Error: Malformed response. 'command' key with 'name' is required."
  else
    match nameJ with
    | .str n =>
        match tools.find? fun t => t.name == n with
        | none => .result ("Error: Unknown command '" ++ n ++ "'.")
        | some t =>
            match argsJ with
            | .obj akvs =>
                if bindOk t akvs then
                  match runTool env n akvs with
                  | .ok r => .result r
                  | .exited c => .exited c
                else
                  .result ("Error: Invalid arguments for command '" ++ n ++ "': "
                    ++ bindErrorMsg t akvs)
            | _ =>
                .result ("Error: Invalid arguments for command '" ++ n ++
                  "': __main__." ++ t.name ++
                  "() argument after ** must be a mapping, not " ++
                  pyTypeName argsJ)
    | .arr _ => .raised "unhashable type: 'list'"
    | .obj _ => .raised "unhashable type: 'dict'"
    | other => .result ("Error: Unknown command '" ++ pyStr other ++ "'.")

/-- One loop iteration's outcome: continue with the new in-memory state and
file content, or the process exits with a code (state/file as at exit). -/
inductive StepRes where
  | next (s : AgentState) (file : Option String) : StepRes
  | halt (code : Nat) (s : AgentState) (file : Option String) : StepRes
  deriving DecidableEq

/-- Append one turn and persist (lines 230–235 / the error handlers). -/
def appendAndSave (s : AgentState) (t : Turn) : StepRes :=
  let s2 : AgentState := ⟨s.main_goal, s.history ++ [t]⟩
  .next s2 (some (save_state s2))

/-- Lines 206–235 after `json.loads` succeeded: extract thoughts/command
(`dict.get`, defaults `""` and `{}`), dispatch, record.  A `.get` on a
non-dict raises `AttributeError`, caught by the generic handler as an error
turn. -/
def handleParsed (env : Env) (s : AgentState) (file : Option String) (j : Json) :
    StepRes :=
  match j with
  | .obj kvs =>
      let thoughts := (lookupJ kvs "thoughts").getD (.str "")
      let command_spec := (lookupJ kvs "command").getD (.obj [])
      match command_spec with
      | .obj ckvs =>
          let nameJ := (lookupJ ckvs "name").getD .null
          let argsJ := (lookupJ ckvs "args").getD (.obj [])
          match dispatch env nameJ argsJ with
          | .exited c => .halt c s file
          | .result r => appendAndSave s (.normal thoughts command_spec r)
          | .raised m =>
              appendAndSave s (.error ("An unexpected error occurred: " ++ m))
      | other =>
          appendAndSave s (.error ("An unexpected error occurred: '" ++
            pyTypeName other ++ "' object has no attribute 'get'"))
  | other =>
      appendAndSave s (.error ("An unexpected error occurred: '" ++
        pyTypeName other ++ "' object has no attribute 'get'"))

/-- How one iteration's response acquisition ends: text obtained (from the
API or pasted in manual mode), a `requests` exception, or Ctrl-C. -/
inductive Acquired where
  | text (s : String) : Acquired
  | requestError (details : String) : Acquired
  | interrupted : Acquired
  deriving DecidableEq

/-- One iteration of `Agent.run`'s `while True` body. -/
def runStep (manual : Bool) (env : Env) (s : AgentState) (file : Option String) :
    Acquired → StepRes
  | .interrupted => .halt 0 s (some (save_state s))
  | .requestError _ => .halt 1 s file
  | .text t =>
      if manual && t == "" then .halt 0 s file
      else
        match loads t with
        | none =>
            appendAndSave s
              (.error ("Error: LLM did not return valid JSON. Response:\n" ++ t))
        | some j => handleParsed env s file j

/-- The loop, driven by the finite list of acquisition outcomes the
environment will produce: final state, final file, and the exit code
(`none` while the oracle list runs out with the loop still going). -/
def runLoop (manual : Bool) (env : Env) :
    List Acquired → AgentState → Option String → AgentState × Option String × Option Nat
  | [], s, f => (s, f, none)
  | a :: rest, s, f =>
      match runStep manual env s f a with
      | .next s2 f2 => runLoop manual env rest s2 f2
      | .halt c s2 f2 => (s2, f2, some c)

/-- Every (state, file) pair the run passes through, one per executed
iteration. -/
def runTraceS (manual : Bool) (env : Env) :
    List Acquired → AgentState → Option String → List (AgentState × Option String)
  | [], _, _ => []
  | a :: rest, s, f =>
      match runStep manual env s f a with
      | .next s2 f2 => (s2, f2) :: runTraceS manual env rest s2 f2
      | .halt _ s2 f2 => [(s2, f2)]

/-! ### Derived notions used by the specification's properties -/

instance : BEq Json := ⟨beqJson⟩

theorem json_beq_iff (a b : Json) : (a == b) = true ↔ a = b := beqJson_iff a b

/-- Whether a turn is an error turn `{"error": ...}`. -/
def Turn.isError : Turn → Bool
  | .error _ => true
  | .normal _ _ _ => false

/-- A command dict that would dispatch the `finish` tool successfully:
name `"finish"` and arguments that bind to `finish(result)`. -/
def successfulFinish : Json → Bool
  | .obj ckvs =>
      ((lookupJ ckvs "name").getD .null == Json.str "finish") &&
        (match (lookupJ ckvs "args").getD (.obj []) with
         | .obj akvs => bindOk finish_spec akvs
         | _ => false)
  | _ => false

/-- A turn that records a successful `finish` invocation. -/
def Turn.recordsFinish : Turn → Bool
  | .normal _ c _ => successfulFinish c
  | .error _ => false

/-- The response object `{"thoughts": th, "command": cspec}`. -/
def responseObj (th cspec : Json) : Json :=
  .obj [("thoughts", th), ("command", cspec)]

/-- The command object `{"name": n, "args": argsJ}`. -/
def commandObj (n : String) (argsJ : Json) : Json :=
  .obj [("name", .str n), ("args", argsJ)]

/-- The environment reports that the named tool's body hit an exception
carrying text `e` on this call (the situation each tool's `except` clause
catches). -/
def envRaises (env : Env) (n : String) (args : List (String × Json)) (e : String) :
    Prop :=
  if n = "execute_shell" then env.shell ((lookupJ args "command").getD .null) = .error e
  else if n = "read_file" then env.readFile ((lookupJ args "path").getD .null) = .error e
  else if n = "write_file" then
    env.writeFile ((lookupJ args "path").getD .null)
      ((lookupJ args "content").getD .null) = .error e
  else if n = "list_directory" then
    env.listDir ((lookupJ args "path").getD .null) = .error e
  else if n = "ask_llm" then
    env.askLlm ((lookupJ args "question").getD .null)
      ((lookupJ args "model").getD (.str LLM_MODEL)) = .error e
  else False

/-- The fixed error prefix each tool's `except` clause prepends. -/
def toolErrPrefix (n : String) : String :=
  if n = "execute_shell" then "Error executing shell command: "
  else if n = "read_file" then "Error reading file: "
  else if n = "write_file" then "Error writing file: "
  else if n = "list_directory" then "Error listing directory: "
  else if n = "ask_llm" then "Error querying LLM: "
  else ""

/-- A concrete environment in which every tool call hits an exception;
used to evaluate the model on concrete inputs. -/
def envFail : Env :=
  ⟨fun _ => .error "boom", fun _ => .error "nofile", fun _ _ => .error "nowrite",
    fun _ => .error "nodir", fun _ _ => .error "nollm"⟩

/-! ### Shape of a single iteration -/

theorem dispatch_finish_exits (env : Env) (akvs : List (String × Json))
    (hb : bindOk finish_spec akvs = true) :
    dispatch env (.str "finish") (.obj akvs) = .exited 0 := by
  simp only [dispatch, show (!truthy (Json.str "finish")) = false from rfl,
    Bool.false_eq_true, if_false,
    show tools.find? (fun t => t.name == "finish") = some finish_spec from rfl,
    hb, if_true, show runTool env "finish" akvs = ToolOut.exited 0 from rfl]

theorem dispatch_result_not_finish (env : Env) (ckvs : List (String × Json))
    (r : String)
    (h : dispatch env ((lookupJ ckvs "name").getD .null)
      ((lookupJ ckvs "args").getD (.obj [])) = .result r) :
    successfulFinish (.obj ckvs) = false := by
  rw [show successfulFinish (.obj ckvs) =
    (((lookupJ ckvs "name").getD .null == Json.str "finish") &&
      (match (lookupJ ckvs "args").getD (.obj []) with
       | .obj akvs => bindOk finish_spec akvs
       | _ => false)) from rfl]
  by_cases hn : ((lookupJ ckvs "name").getD .null == Json.str "finish") = true
  · have hn2 : (lookupJ ckvs "name").getD .null = Json.str "finish" :=
      (json_beq_iff _ _).mp hn
    rw [hn2] at h
    rw [hn]
    simp only [Bool.true_and]
    cases hargs : (lookupJ ckvs "args").getD (.obj []) with
    | obj akvs =>
        rw [hargs] at h
        by_cases hb : bindOk finish_spec akvs = true
        · rw [dispatch_finish_exits env akvs hb] at h
          exact absurd h (by simp)
        · simp only []
          exact Bool.not_eq_true _ |>.mp hb
    | null => simp
    | bool b => simp
    | num n => simp
    | fnum f => simp
    | str s => simp
    | arr xs => simp
  · rw [Bool.not_eq_true] at hn
    rw [hn]
    simp

theorem appendAndSave_next (s : AgentState) (t : Turn) (s2 : AgentState)
    (f2 : Option String) (h : appendAndSave s t = .next s2 f2) :
    s2 = ⟨s.main_goal, s.history ++ [t]⟩ ∧ f2 = some (save_state s2) := by
  simp only [appendAndSave, StepRes.next.injEq] at h
  obtain ⟨h1, h2⟩ := h
  subst h1
  subst h2
  exact ⟨rfl, rfl⟩

theorem handleParsed_next (env : Env) (s : AgentState) (file : Option String)
    (j : Json) (s2 : AgentState) (f2 : Option String)
    (h : handleParsed env s file j = .next s2 f2) :
    ∃ t, s2 = ⟨s.main_goal, s.history ++ [t]⟩ ∧ f2 = some (save_state s2) ∧
      t.recordsFinish = false := by
  cases j with
  | obj kvs =>
      simp only [handleParsed] at h
      cases hc : (lookupJ kvs "command").getD (Json.obj []) with
      | obj ckvs =>
          rw [hc] at h
          simp only [] at h
          cases hd : dispatch env ((lookupJ ckvs "name").getD .null)
            ((lookupJ ckvs "args").getD (.obj [])) with
          | exited c =>
              rw [hd] at h
              simp at h
          | result r =>
              rw [hd] at h
              simp only [] at h
              obtain ⟨h1, h2⟩ := appendAndSave_next s _ s2 f2 h
              exact ⟨_, h1, h2, dispatch_result_not_finish env ckvs r hd⟩
          | raised m =>
              rw [hd] at h
              simp only [] at h
              obtain ⟨h1, h2⟩ := appendAndSave_next s _ s2 f2 h
              exact ⟨_, h1, h2, rfl⟩
      | null =>
          rw [hc] at h
          simp only [] at h
          obtain ⟨h1, h2⟩ := appendAndSave_next s _ s2 f2 h
          exact ⟨_, h1, h2, rfl⟩
      | bool b =>
          rw [hc] at h
          simp only [] at h
          obtain ⟨h1, h2⟩ := appendAndSave_next s _ s2 f2 h
          exact ⟨_, h1, h2, rfl⟩
      | num n =>
          rw [hc] at h
          simp only [] at h
          obtain ⟨h1, h2⟩ := appendAndSave_next s _ s2 f2 h
          exact ⟨_, h1, h2, rfl⟩
      | fnum fv =>
          rw [hc] at h
          simp only [] at h
          obtain ⟨h1, h2⟩ := appendAndSave_next s _ s2 f2 h
          exact ⟨_, h1, h2, rfl⟩
      | str v =>
          rw [hc] at h
          simp only [] at h
          obtain ⟨h1, h2⟩ := appendAndSave_next s _ s2 f2 h
          exact ⟨_, h1, h2, rfl⟩
      | arr xs =>
          rw [hc] at h
          simp only [] at h
          obtain ⟨h1, h2⟩ := appendAndSave_next s _ s2 f2 h
          exact ⟨_, h1, h2, rfl⟩
  | null =>
      simp only [handleParsed] at h
      obtain ⟨h1, h2⟩ := appendAndSave_next s _ s2 f2 h
      exact ⟨_, h1, h2, rfl⟩
  | bool b =>
      simp only [handleParsed] at h
      obtain ⟨h1, h2⟩ := appendAndSave_next s _ s2 f2 h
      exact ⟨_, h1, h2, rfl⟩
  | num n =>
      simp only [handleParsed] at h
      obtain ⟨h1, h2⟩ := appendAndSave_next s _ s2 f2 h
      exact ⟨_, h1, h2, rfl⟩
  | fnum fv =>
      simp only [handleParsed] at h
      obtain ⟨h1, h2⟩ := appendAndSave_next s _ s2 f2 h
      exact ⟨_, h1, h2, rfl⟩
  | str v =>
      simp only [handleParsed] at h
      obtain ⟨h1, h2⟩ := appendAndSave_next s _ s2 f2 h
      exact ⟨_, h1, h2, rfl⟩
  | arr xs =>
      simp only [handleParsed] at h
      obtain ⟨h1, h2⟩ := appendAndSave_next s _ s2 f2 h
      exact ⟨_, h1, h2, rfl⟩

theorem runStep_next (manual : Bool) (env : Env) (s : AgentState)
    (file : Option String) (a : Acquired) (s2 : AgentState) (f2 : Option String)
    (h : runStep manual env s file a = .next s2 f2) :
    ∃ t, s2 = ⟨s.main_goal, s.history ++ [t]⟩ ∧ f2 = some (save_state s2) ∧
      t.recordsFinish = false := by
  cases a with
  | interrupted => simp [runStep] at h
  | requestError d => simp [runStep] at h
  | text t =>
      simp only [runStep] at h
      by_cases hm : (manual && t == "") = true
      · rw [if_pos hm] at h
        simp at h
      · rw [if_neg hm] at h
        cases hl : loads t with
        | none =>
            rw [hl] at h
            simp only [] at h
            obtain ⟨h1, h2⟩ := appendAndSave_next s _ s2 f2 h
            exact ⟨_, h1, h2, rfl⟩
        | some j =>
            rw [hl] at h
            exact handleParsed_next env s file j s2 f2 h

theorem runStep_halt (manual : Bool) (env : Env) (s : AgentState)
    (file : Option String) (a : Acquired) (c : Nat) (s2 : AgentState)
    (f2 : Option String) (h : runStep manual env s file a = .halt c s2 f2) :
    s2 = s ∧ (f2 = file ∨ f2 = some (save_state s)) := by
  cases a with
  | interrupted =>
      simp only [runStep, StepRes.halt.injEq] at h
      exact ⟨h.2.1.symm, Or.inr h.2.2.symm⟩
  | requestError d =>
      simp only [runStep, StepRes.halt.injEq] at h
      exact ⟨h.2.1.symm, Or.inl h.2.2.symm⟩
  | text t =>
      simp only [runStep] at h
      by_cases hm : (manual && t == "") = true
      · rw [if_pos hm] at h
        simp only [StepRes.halt.injEq] at h
        exact ⟨h.2.1.symm, Or.inl h.2.2.symm⟩
      · rw [if_neg hm] at h
        cases hl : loads t with
        | none =>
            rw [hl] at h
            simp [appendAndSave] at h
        | some j =>
            rw [hl] at h
            cases j with
            | obj kvs =>
                simp only [handleParsed] at h
                cases hc : (lookupJ kvs "command").getD (Json.obj []) with
                | obj ckvs =>
                    rw [hc] at h
                    simp only [] at h
                    cases hd : dispatch env ((lookupJ ckvs "name").getD .null)
                      ((lookupJ ckvs "args").getD (.obj [])) with
                    | exited c2 =>
                        rw [hd] at h
                        simp only [StepRes.halt.injEq] at h
                        exact ⟨h.2.1.symm, Or.inl h.2.2.symm⟩
                    | result r =>
                        rw [hd] at h
                        simp [appendAndSave] at h
                    | raised m =>
                        rw [hd] at h
                        simp [appendAndSave] at h
                | null =>
                    rw [hc] at h
                    simp [appendAndSave] at h
                | bool b =>
                    rw [hc] at h
                    simp [appendAndSave] at h
                | num n =>
                    rw [hc] at h
                    simp [appendAndSave] at h
                | fnum fv =>
                    rw [hc] at h
                    simp [appendAndSave] at h
                | str v =>
                    rw [hc] at h
                    simp [appendAndSave] at h
                | arr xs =>
                    rw [hc] at h
                    simp [appendAndSave] at h
            | null => simp [handleParsed, appendAndSave] at h
            | bool b => simp [handleParsed, appendAndSave] at h
            | num n => simp [handleParsed, appendAndSave] at h
            | fnum fv => simp [handleParsed, appendAndSave] at h
            | str v => simp [handleParsed, appendAndSave] at h
            | arr xs => simp [handleParsed, appendAndSave] at h

/-! ### History trimming -/

/-- Soundness of the trimming loop on a non-empty history: the trimmed
serialization fits the budget or exactly one turn remains, and the most
recent turn survives. -/
theorem trimHistory_sound (budget : Nat) :
    ∀ (h : List Turn), h ≠ [] →
    ((historyStr (trimHistory budget h)).length ≤ budget ∨
      (trimHistory budget h).length = 1) ∧
    (trimHistory budget h).getLast? = h.getLast?
  | [], hne => absurd rfl hne
  | t :: rest, _ => by
      have hstep : trimHistory budget (t :: rest) =
          if (historyStr (t :: rest)).length > budget ∧ rest ≠ [] then
            trimHistory budget rest
          else t :: rest := rfl
      by_cases hc : (historyStr (t :: rest)).length > budget ∧ rest ≠ []
      · rw [hstep, if_pos hc]
        obtain ⟨h1, h2⟩ := trimHistory_sound budget rest hc.2
        refine ⟨h1, h2.trans ?_⟩
        cases rest with
        | nil => exact absurd rfl hc.2
        | cons r rs => rw [List.getLast?_cons_cons]
      · rw [hstep, if_neg hc]
        rcases not_and_or.mp hc with h1 | h2
        · exact ⟨Or.inl (by omega), rfl⟩
        · have hre : rest = [] := not_not.mp h2
          subst hre
          exact ⟨Or.inr rfl, rfl⟩

/-- The trimming loop only ever drops a prefix. -/
theorem trimHistory_isSuffix (budget : Nat) :
    ∀ (h : List Turn), List.IsSuffix (trimHistory budget h) h
  | [] => List.suffix_refl []
  | t :: rest => by
      have hstep : trimHistory budget (t :: rest) =
          if (historyStr (t :: rest)).length > budget ∧ rest ≠ [] then
            trimHistory budget rest
          else t :: rest := rfl
      rw [hstep]
      by_cases hc : (historyStr (t :: rest)).length > budget ∧ rest ≠ []
      · rw [if_pos hc]
        exact (trimHistory_isSuffix budget rest).trans (List.suffix_cons t rest)
      · rw [if_neg hc]

/-- C3 (amended: stated for a non-empty history — `_construct_prompt`'s
`while` loop never runs on an empty history, which stays empty, so with an
empty history and a budget below the length of `"[]"` neither disjunct of
the original claim holds): for every budget and non-empty history, the
trimmed history's serialization length is at most the budget or exactly one
turn remains, and the most recent turn is never dropped. -/
theorem C3_trim_bound (budget : Nat) (h : List Turn) (hne : h ≠ []) :
    ((historyStr (trimHistory budget h)).length ≤ budget ∨
      (trimHistory budget h).length = 1) ∧
    (trimHistory budget h).getLast? = h.getLast? :=
  trimHistory_sound budget h hne

/-- C3 counterexample to the unrestricted claim: with an empty history and
budget 0, trimming leaves the empty history, whose serialization `"[]"` has
length 2 > 0, and zero (not one) turns remain. -/
theorem C3_trim_bound_cex :
    ¬ (((historyStr (trimHistory 0 ([] : List Turn))).length ≤ 0 ∨
      (trimHistory 0 ([] : List Turn)).length = 1)) := by
  decide

theorem C3_trim_bound_witness :
    (([Turn.error "e"] : List Turn) ≠ []) ∧
    ((((historyStr (trimHistory 0 [Turn.error "e"])).length ≤ 0 ∨
      (trimHistory 0 [Turn.error "e"]).length = 1)) ∧
    (trimHistory 0 [Turn.error "e"]).getLast? =
      ([Turn.error "e"] : List Turn).getLast?) :=
  ⟨by decide, C3_trim_bound 0 [Turn.error "e"] (by decide)⟩

/-- C7: for every budget and history, the trimmed history handed to the
prompt is a suffix of the original history — the most recent turns, in the
original order, with no turn reordered, edited or deduplicated. -/
theorem C7_trim_suffix (budget : Nat) (h : List Turn) :
    List.IsSuffix (trimHistory budget h) h :=
  trimHistory_isSuffix budget h

/-! ### Save/load round trip -/

/-- The stored dict of a valid turn has distinct keys in every object. -/
theorem wfJson_toJson_turn (t : Turn) (hv : validTurn t = true) :
    wfJson (Turn.toJson t) = true := by
  cases t with
  | normal th c r =>
      have hv2 : (wfJson th && wfJson c) = true := hv
      simp only [Bool.and_eq_true] at hv2
      have e : wfJson (Turn.toJson (Turn.normal th c r)) =
          (true && (wfJson th && (wfJson c && (true && true)))) := rfl
      rw [e, hv2.1, hv2.2]
      rfl
  | error e => rfl

/-- `wfJson_toJson_turn` over a whole history. -/
theorem wfList_map_turns :
    ∀ (l : List Turn), l.all validTurn = true →
    wfList (l.map Turn.toJson) = true
  | [], _ => rfl
  | t :: ts, h => by
      simp only [List.all_cons, Bool.and_eq_true] at h
      have e : wfList ((t :: ts).map Turn.toJson) =
          (wfJson (Turn.toJson t) && wfList (ts.map Turn.toJson)) := rfl
      rw [e, wfJson_toJson_turn t h.1, wfList_map_turns ts h.2]
      rfl

/-- The persisted dict of a valid state has distinct keys in every object. -/
theorem wfJson_stateToJson (s : AgentState) (hv : validState s = true) :
    wfJson (stateToJson s) = true := by
  have e : wfJson (stateToJson s) =
      (true && (true && (wfList (s.history.map Turn.toJson) && true))) := rfl
  rw [e, wfList_map_turns s.history hv]
  rfl

/-- Reading back a stored turn. -/
theorem turnOfJson_toJson (t : Turn) : turnOfJson (Turn.toJson t) = some t := by
  cases t <;> rfl

/-- Reading back a stored history. -/
theorem turnsOfJson_map : ∀ (l : List Turn), turnsOfJson (l.map Turn.toJson) = some l
  | [] => rfl
  | t :: ts => by
      simp only [List.map_cons, turnsOfJson, turnOfJson_toJson t, turnsOfJson_map ts]

/-- Reading back a stored state. -/
theorem stateOfJson_stateToJson (s : AgentState) :
    stateOfJson (stateToJson s) = some s := by
  have e : stateOfJson (stateToJson s) =
      (match turnsOfJson (s.history.map Turn.toJson) with
       | some ts => some ⟨s.main_goal, ts⟩
       | none => none) := rfl
  rw [e, turnsOfJson_map s.history]

/-- C4: for every goal and every valid `AgentState` (each object inside it
has distinct keys, true of any state a Python run holds), loading the state
file right after saving returns exactly the saved state. -/
theorem C4_save_load_roundtrip (g : String) (s : AgentState)
    (hv : validState s = true) :
    load_state g (some (save_state s)) = some s := by
  have e : load_state g (some (save_state s)) =
      (loads (dumps (some 4) (stateToJson s))).bind stateOfJson := rfl
  rw [e, loads_dumps (some 4) (stateToJson s) (wfJson_stateToJson s hv)]
  exact stateOfJson_stateToJson s

theorem C4_save_load_roundtrip_witness :
    validState ⟨"explore", [Turn.normal (Json.str "look around")
        (Json.obj [("name", Json.str "list_directory"),
          ("args", Json.obj [("path", Json.str ".")])]) "[]",
      Turn.error "Error: LLM did not return valid JSON. Response:\nnot json"]⟩ = true ∧
    load_state "other" (some (save_state ⟨"explore",
      [Turn.normal (Json.str "look around")
        (Json.obj [("name", Json.str "list_directory"),
          ("args", Json.obj [("path", Json.str ".")])]) "[]",
      Turn.error "Error: LLM did not return valid JSON. Response:\nnot json"]⟩)) =
    some ⟨"explore", [Turn.normal (Json.str "look around")
        (Json.obj [("name", Json.str "list_directory"),
          ("args", Json.obj [("path", Json.str ".")])]) "[]",
      Turn.error "Error: LLM did not return valid JSON. Response:\nnot json"]⟩ :=
  ⟨by decide, C4_save_load_roundtrip "other" _ (by decide)⟩


/-! ### The tool catalog -/

/-- Every member of a joined line list occurs verbatim in the join. -/
theorem joinLines_mem_infix :
    ∀ (l : List String) (x : String), x ∈ l →
    ∃ pre post, joinLines l = pre ++ x ++ post
  | [], x, hx => absurd hx (List.not_mem_nil x)
  | a :: as, x, hx => by
      rcases List.mem_cons.mp hx with rfl | hx2
      · cases as with
        | nil =>
            refine ⟨"", "", ?_⟩
            rw [String.empty_append, String.append_empty]
            rfl
        | cons b bs =>
            refine ⟨"", "\n" ++ joinLines (b :: bs), ?_⟩
            rw [String.empty_append, ← String.append_assoc]
            rfl
      · cases as with
        | nil => exact absurd hx2 (List.not_mem_nil x)
        | cons b bs =>
            obtain ⟨pre, post, hpp⟩ := joinLines_mem_infix (b :: bs) x hx2
            refine ⟨a ++ "\n" ++ pre, post, ?_⟩
            rw [show joinLines (a :: b :: bs) = a ++ "\n" ++ joinLines (b :: bs) from rfl,
              hpp]
            simp [String.append_assoc]

/-- C6 (amended: `func.__annotations__` also contains the function's
`return` annotation, so each tool's Args mapping in the catalog holds the
declared argument names plus one extra key `"return"`): every registered
tool appears verbatim in the catalog text with its name, docstring, and its
annotation mapping, whose keys are exactly the declared argument names
followed by `"return"`. -/
theorem C6_catalog (t : ToolSpec) (ht : t ∈ tools) :
    t.annots.map Prod.fst = (t.required ++ t.optional) ++ ["return"] ∧
    ∃ pre post, get_tools_description =
      pre ++ ("- `" ++ t.name ++ "`: " ++ t.doc ++ "\n  Args: " ++
        dumps none (annotsJson t.annots)) ++ post := by
  constructor
  · fin_cases ht <;> rfl
  · obtain ⟨pre, post, hpp⟩ :=
      joinLines_mem_infix (tools.map toolEntry) (toolEntry t)
        (List.mem_map.mpr ⟨t, ht, rfl⟩)
    exact ⟨pre, post, hpp⟩

/-- C6 counterexample to "no more and no fewer keys than the tool's
arguments": `execute_shell` declares the single argument `command`, yet its
catalog Args mapping is rendered with the two keys `command` and
`return`. -/
theorem C6_catalog_cex :
    execute_shell_spec ∈ tools ∧
    execute_shell_spec.annots.map Prod.fst ≠
      execute_shell_spec.required ++ execute_shell_spec.optional ∧
    dumps none (annotsJson execute_shell_spec.annots) =
      "\x7b\"command\": \"str\", \"return\": \"str\"\x7d" :=
  ⟨by decide, by decide, rfl⟩

theorem C6_catalog_witness :
    finish_spec ∈ tools ∧
    (finish_spec.annots.map Prod.fst =
      (finish_spec.required ++ finish_spec.optional) ++ ["return"] ∧
    ∃ pre post, get_tools_description =
      pre ++ ("- `" ++ finish_spec.name ++ "`: " ++ finish_spec.doc ++ "\n  Args: " ++
        dumps none (annotsJson finish_spec.annots)) ++ post) :=
  ⟨by decide, C6_catalog finish_spec (by decide)⟩

/-! ### Malformed responses -/

/-- C2 (amended: only the not-valid-JSON half survives — a response that is
valid JSON but lacks `thoughts` or `command` does NOT produce an error turn,
see the counterexample — and in manual mode the empty response exits
instead): if the obtained text does not parse as JSON (and is nonempty or
the mode is automatic), exactly one error turn wrapping the raw text is
appended, the state is persisted, and the loop continues. -/
theorem C2_invalid_json (manual : Bool) (env : Env) (s : AgentState)
    (file : Option String) (t : String) (hl : loads t = none)
    (hm : manual = false ∨ t ≠ "") :
    runStep manual env s file (.text t) =
      .next ⟨s.main_goal, s.history ++ [Turn.error
          ("Error: LLM did not return valid JSON. Response:\n" ++ t)]⟩
        (some (save_state ⟨s.main_goal, s.history ++ [Turn.error
          ("Error: LLM did not return valid JSON. Response:\n" ++ t)]⟩)) := by
  have hmm : (manual && t == "") = false := by
    rcases hm with rfl | hne
    · rfl
    · have h2 : (t == "") = false := beq_eq_false_iff_ne.mpr hne
      rw [h2, Bool.and_false]
  have hmm2 : ¬ ((manual && t == "") = true) := by
    rw [hmm]
    exact Bool.false_ne_true
  simp only [runStep]
  rw [if_neg hmm2, hl]
  rfl

set_option maxRecDepth 10000 in
/-- C2 counterexample to the missing-keys half: the response
`{"thoughts": "hi"}` is valid JSON lacking the `command` key, yet the
iteration appends a NORMAL turn (whose result is the malformed-response
text), not an error turn. -/
theorem C2_invalid_json_cex :
    loads "\x7b\"thoughts\": \"hi\"\x7d" = some (.obj [("thoughts", .str "hi")]) ∧
    runStep false envFail ⟨"g", []⟩ none (.text "\x7b\"thoughts\": \"hi\"\x7d") =
      .next ⟨"g", [Turn.normal (.str "hi") (.obj [])
          "Error: Malformed response. 'command' key with 'name' is required."]⟩
        (some (save_state ⟨"g", [Turn.normal (.str "hi") (.obj [])
          "Error: Malformed response. 'command' key with 'name' is required."]⟩)) ∧
    Turn.isError (Turn.normal (.str "hi") (.obj [])
      "Error: Malformed response. 'command' key with 'name' is required.") = false := by
  refine ⟨by decide, by decide, rfl⟩

theorem C2_invalid_json_witness :
    loads "not json" = none ∧
    ((false : Bool) = false ∨ "not json" ≠ "") ∧
    runStep false envFail ⟨"g", []⟩ none (.text "not json") =
      .next ⟨"g", [Turn.error
          ("Error: LLM did not return valid JSON. Response:\n" ++ "not json")]⟩
        (some (save_state ⟨"g", [Turn.error
          ("Error: LLM did not return valid JSON. Response:\n" ++ "not json")]⟩)) :=
  ⟨by decide, Or.inl rfl,
    C2_invalid_json false envFail ⟨"g", []⟩ none "not json" (by decide) (Or.inl rfl)⟩

/-! ### The per-iteration frame -/

/-- C8: every iteration that continues the loop keeps the goal, appends
exactly one turn to the history (prior turns untouched), and persists the
new state. -/
theorem C8_iteration_frame (manual : Bool) (env : Env) (s : AgentState)
    (file : Option String) (a : Acquired) (s2 : AgentState) (f2 : Option String)
    (h : runStep manual env s file a = .next s2 f2) :
    s2.main_goal = s.main_goal ∧ (∃ t, s2.history = s.history ++ [t]) ∧
      f2 = some (save_state s2) := by
  obtain ⟨t, h1, h2, _⟩ := runStep_next manual env s file a s2 f2 h
  subst h1
  exact ⟨rfl, ⟨t, rfl⟩, h2⟩

set_option maxRecDepth 10000 in
theorem C8_iteration_frame_witness :
    (⟨"g", [Turn.error "Error: LLM did not return valid JSON. Response:\nx"]⟩
        : AgentState).main_goal = (⟨"g", []⟩ : AgentState).main_goal ∧
    (∃ t, (⟨"g", [Turn.error "Error: LLM did not return valid JSON. Response:\nx"]⟩
        : AgentState).history = (⟨"g", []⟩ : AgentState).history ++ [t]) ∧
    some (save_state ⟨"g",
        [Turn.error "Error: LLM did not return valid JSON. Response:\nx"]⟩) =
      some (save_state ⟨"g",
        [Turn.error "Error: LLM did not return valid JSON. Response:\nx"]⟩) :=
  C8_iteration_frame false envFail ⟨"g", []⟩ none (.text "x")
    ⟨"g", [Turn.error "Error: LLM did not return valid JSON. Response:\nx"]⟩
    (some (save_state ⟨"g",
      [Turn.error "Error: LLM did not return valid JSON. Response:\nx"]⟩))
    (by decide)


/-! ### Dispatch-recoverable failures -/

/-- Reducing `handleParsed` on a well-shaped response object. -/
theorem handleParsed_responseObj (env : Env) (s : AgentState) (file : Option String)
    (th : Json) (n : String) (argsJ : Json) :
    handleParsed env s file (responseObj th (commandObj n argsJ)) =
      (match dispatch env (.str n) argsJ with
       | .exited c => .halt c s file
       | .result r => appendAndSave s (.normal th (commandObj n argsJ) r)
       | .raised m =>
           appendAndSave s (.error ("An unexpected error occurred: " ++ m))) := rfl

/-- C1: every dispatch-recoverable failure — unknown command, arguments
that do not bind to the handler's parameters, or a tool body that raises —
is recorded via `appendAndSave` as a NORMAL turn whose result carries the
error text, and `appendAndSave` continues the loop with exactly that one
turn appended and persisted (never an error turn, never an exit). -/
theorem C1_dispatch_recoverable (env : Env) (s : AgentState) (file : Option String)
    (th : Json) (n : String) (argsJ : Json) :
    (n ≠ "" → tools.find? (fun t2 => t2.name == n) = none →
      handleParsed env s file (responseObj th (commandObj n argsJ)) =
        appendAndSave s (.normal th (commandObj n argsJ)
          ("Error: Unknown command '" ++ n ++ "'."))) ∧
    (∀ t2 akvs, n ≠ "" → tools.find? (fun t3 => t3.name == n) = some t2 →
      argsJ = .obj akvs → bindOk t2 akvs = false →
      handleParsed env s file (responseObj th (commandObj n argsJ)) =
        appendAndSave s (.normal th (commandObj n argsJ)
          ("Error: Invalid arguments for command '" ++ n ++ "': " ++
            bindErrorMsg t2 akvs))) ∧
    (∀ akvs e, argsJ = .obj akvs →
      envRaises env n akvs e →
      (match tools.find? fun t3 => t3.name == n with
       | some t2 => bindOk t2 akvs
       | none => false) = true →
      handleParsed env s file (responseObj th (commandObj n argsJ)) =
        appendAndSave s (.normal th (commandObj n argsJ) (toolErrPrefix n ++ e))) ∧
    (∀ t2, appendAndSave s t2 = .next ⟨s.main_goal, s.history ++ [t2]⟩
      (some (save_state ⟨s.main_goal, s.history ++ [t2]⟩)) ∧
      Turn.isError (.normal th (commandObj n argsJ) "") = false) := by
  refine ⟨?_, ?_, ?_, ?_⟩
  · intro hn hfind
    have htneg : (!truthy (Json.str n)) = false := by
      have h2 : (n != "") = true := bne_iff_ne.mpr hn
      show (!(n != "")) = false
      rw [h2]
      rfl
    have hd : dispatch env (.str n) argsJ =
        .result ("Error: Unknown command '" ++ n ++ "'.") := by
      simp only [dispatch, htneg, Bool.false_eq_true, if_false, hfind]
    rw [handleParsed_responseObj, hd]
  · intro t2 akvs hn hfind hargs hb
    subst hargs
    have htneg : (!truthy (Json.str n)) = false := by
      have h2 : (n != "") = true := bne_iff_ne.mpr hn
      show (!(n != "")) = false
      rw [h2]
      rfl
    have hd : dispatch env (.str n) (.obj akvs) =
        .result ("Error: Invalid arguments for command '" ++ n ++ "': " ++
          bindErrorMsg t2 akvs) := by
      simp only [dispatch, htneg, Bool.false_eq_true, if_false, hfind, hb]
    rw [handleParsed_responseObj, hd]
  · intro akvs e hargs hr hfb
    subst hargs
    by_cases h1 : n = "execute_shell"
    · subst h1
      have hb : bindOk execute_shell_spec akvs = true := hfb
      have hr2 : env.shell ((lookupJ akvs "command").getD .null) = .error e := hr
      have hd : dispatch env (.str "execute_shell") (.obj akvs) =
          .result ("Error executing shell command: " ++ e) := by
        simp only [dispatch,
          show (!truthy (Json.str "execute_shell")) = false from rfl,
          Bool.false_eq_true, if_false,
          show tools.find? (fun t3 => t3.name == "execute_shell") =
            some execute_shell_spec from rfl,
          hb, if_true,
          show runTool env "execute_shell" akvs =
            .ok (execute_shell env ((lookupJ akvs "command").getD .null)) from rfl,
          execute_shell, hr2]
      rw [handleParsed_responseObj, hd]
      rfl
    · by_cases h2 : n = "read_file"
      · subst h2
        have hb : bindOk read_file_spec akvs = true := hfb
        have hr2 : env.readFile ((lookupJ akvs "path").getD .null) = .error e := hr
        have hd : dispatch env (.str "read_file") (.obj akvs) =
            .result ("Error reading file: " ++ e) := by
          simp only [dispatch,
            show (!truthy (Json.str "read_file")) = false from rfl,
            Bool.false_eq_true, if_false,
            show tools.find? (fun t3 => t3.name == "read_file") =
              some read_file_spec from rfl,
            hb, if_true,
            show runTool env "read_file" akvs =
              .ok (read_file env ((lookupJ akvs "path").getD .null)) from rfl,
            read_file, hr2]
        rw [handleParsed_responseObj, hd]
        rfl
      · by_cases h3 : n = "write_file"
        · subst h3
          have hb : bindOk write_file_spec akvs = true := hfb
          have hr2 : env.writeFile ((lookupJ akvs "path").getD .null)
              ((lookupJ akvs "content").getD .null) = .error e := hr
          have hd : dispatch env (.str "write_file") (.obj akvs) =
              .result ("Error writing file: " ++ e) := by
            simp only [dispatch,
              show (!truthy (Json.str "write_file")) = false from rfl,
              Bool.false_eq_true, if_false,
              show tools.find? (fun t3 => t3.name == "write_file") =
                some write_file_spec from rfl,
              hb, if_true,
              show runTool env "write_file" akvs =
                .ok (write_file env ((lookupJ akvs "path").getD .null)
                  ((lookupJ akvs "content").getD .null)) from rfl,
              write_file, hr2]
          rw [handleParsed_responseObj, hd]
          rfl
        · by_cases h4 : n = "list_directory"
          · subst h4
            have hb : bindOk list_directory_spec akvs = true := hfb
            have hr2 : env.listDir ((lookupJ akvs "path").getD .null) = .error e := hr
            have hd : dispatch env (.str "list_directory") (.obj akvs) =
                .result ("Error listing directory: " ++ e) := by
              simp only [dispatch,
                show (!truthy (Json.str "list_directory")) = false from rfl,
                Bool.false_eq_true, if_false,
                show tools.find? (fun t3 => t3.name == "list_directory") =
                  some list_directory_spec from rfl,
                hb, if_true,
                show runTool env "list_directory" akvs =
                  .ok (list_directory env ((lookupJ akvs "path").getD .null)) from rfl,
                list_directory, hr2]
            rw [handleParsed_responseObj, hd]
            rfl
          · by_cases h5 : n = "ask_llm"
            · subst h5
              have hb : bindOk ask_llm_spec akvs = true := hfb
              have hr2 : env.askLlm ((lookupJ akvs "question").getD .null)
                  ((lookupJ akvs "model").getD (.str LLM_MODEL)) = .error e := hr
              have hd : dispatch env (.str "ask_llm") (.obj akvs) =
                  .result ("Error querying LLM: " ++ e) := by
                simp only [dispatch,
                  show (!truthy (Json.str "ask_llm")) = false from rfl,
                  Bool.false_eq_true, if_false,
                  show tools.find? (fun t3 => t3.name == "ask_llm") =
                    some ask_llm_spec from rfl,
                  hb, if_true,
                  show runTool env "ask_llm" akvs =
                    .ok (ask_llm env ((lookupJ akvs "question").getD .null)
                      ((lookupJ akvs "model").getD (.str LLM_MODEL))) from rfl,
                  ask_llm, hr2]
              rw [handleParsed_responseObj, hd]
              rfl
            · have : False := by
                have e0 : envRaises env n akvs e = False := by
                  simp only [envRaises, if_neg h1, if_neg h2, if_neg h3, if_neg h4,
                    if_neg h5]
                rw [e0] at hr
                exact hr
              exact absurd this (by simp)
  · intro t2
    exact ⟨rfl, rfl⟩

theorem C1_dispatch_recoverable_witness :
    handleParsed envFail ⟨"g", []⟩ none
        (responseObj (.str "t") (commandObj "frobnicate" (.obj []))) =
      appendAndSave ⟨"g", []⟩ (.normal (.str "t") (commandObj "frobnicate" (.obj []))
        ("Error: Unknown command '" ++ "frobnicate" ++ "'.")) ∧
    handleParsed envFail ⟨"g", []⟩ none
        (responseObj (.str "t") (commandObj "read_file" (.obj []))) =
      appendAndSave ⟨"g", []⟩ (.normal (.str "t") (commandObj "read_file" (.obj []))
        ("Error: Invalid arguments for command '" ++ "read_file" ++ "': " ++
          bindErrorMsg read_file_spec [])) ∧
    handleParsed envFail ⟨"g", []⟩ none
        (responseObj (.str "t")
          (commandObj "execute_shell" (.obj [("command", .str "ls")]))) =
      appendAndSave ⟨"g", []⟩ (.normal (.str "t")
        (commandObj "execute_shell" (.obj [("command", .str "ls")]))
        (toolErrPrefix "execute_shell" ++ "boom")) :=
  ⟨(C1_dispatch_recoverable envFail ⟨"g", []⟩ none (.str "t") "frobnicate"
      (.obj [])).1 (by decide) (by decide),
   (C1_dispatch_recoverable envFail ⟨"g", []⟩ none (.str "t") "read_file"
      (.obj [])).2.1 read_file_spec [] (by decide) (by decide) rfl (by decide),
   (C1_dispatch_recoverable envFail ⟨"g", []⟩ none (.str "t") "execute_shell"
      (.obj [("command", .str "ls")])).2.2.1 [("command", .str "ls")] "boom" rfl
      rfl (by decide)⟩


/-! ### Termination via finish -/

/-- C5: whenever the obtained text parses to a response whose command is
`finish` with binding arguments, the iteration's dispatch reaches
`sys.exit(0)` — the step halts with code 0, no turn is appended, no save
happens, and however many further acquisition outcomes the environment
would have produced, the loop performs no further iteration. -/
theorem C5_finish_terminates (manual : Bool) (env : Env) (s : AgentState)
    (file : Option String) (t : String) (th : Json) (akvs : List (String × Json))
    (rest : List Acquired)
    (hl : loads t = some (responseObj th (commandObj "finish" (.obj akvs))))
    (hb : bindOk finish_spec akvs = true) :
    runStep manual env s file (.text t) = .halt 0 s file ∧
    runLoop manual env (.text t :: rest) s file = (s, file, some 0) := by
  have hne : t ≠ "" := by
    intro he
    rw [he, show loads "" = none from rfl] at hl
    exact Option.noConfusion hl
  have hmm2 : ¬ ((manual && t == "") = true) := by
    have h2 : (t == "") = false := beq_eq_false_iff_ne.mpr hne
    rw [h2, Bool.and_false]
    exact Bool.false_ne_true
  have hstep : runStep manual env s file (.text t) = .halt 0 s file := by
    simp only [runStep]
    rw [if_neg hmm2, hl]
    simp only []
    rw [handleParsed_responseObj, dispatch_finish_exits env akvs hb]
  refine ⟨hstep, ?_⟩
  simp only [runLoop]
  rw [hstep]

set_option maxRecDepth 40000 in
theorem C5_finish_terminates_witness :
    loads "\x7b\"thoughts\": \"done\", \"command\": \x7b\"name\": \"finish\", \"args\": \x7b\"result\": \"ok\"\x7d\x7d\x7d" =
      some (responseObj (.str "done") (commandObj "finish"
        (.obj [("result", .str "ok")]))) ∧
    bindOk finish_spec [("result", .str "ok")] = true ∧
    (runStep false envFail ⟨"g", []⟩ none
        (.text "\x7b\"thoughts\": \"done\", \"command\": \x7b\"name\": \"finish\", \"args\": \x7b\"result\": \"ok\"\x7d\x7d\x7d") =
      .halt 0 ⟨"g", []⟩ none ∧
    runLoop false envFail
        (.text "\x7b\"thoughts\": \"done\", \"command\": \x7b\"name\": \"finish\", \"args\": \x7b\"result\": \"ok\"\x7d\x7d\x7d"
          :: [.text "ignored", .interrupted]) ⟨"g", []⟩ none =
      (⟨"g", []⟩, none, some 0)) :=
  ⟨by decide, by decide,
    C5_finish_terminates false envFail ⟨"g", []⟩ none _ (.str "done")
      [("result", .str "ok")] [.text "ignored", .interrupted] (by decide) (by decide)⟩


/-! ### No successful finish is ever persisted -/

/-- Trace invariant behind C9: if no turn of the current state records a
successful finish, the same holds of every state the run passes through and
of every state whose save is ever written to the file. -/
theorem traceNoFinish_aux (manual : Bool) (env : Env) :
    ∀ (acqs : List Acquired) (s : AgentState) (file : Option String),
    s.history.all (fun t => !t.recordsFinish) = true →
    (file = none ∨ ∃ s0, file = some (save_state s0) ∧
      s0.history.all (fun t => !t.recordsFinish) = true) →
    ∀ p ∈ runTraceS manual env acqs s file,
      p.1.history.all (fun t => !t.recordsFinish) = true ∧
      (p.2 = none ∨ ∃ s1, p.2 = some (save_state s1) ∧
        s1.history.all (fun t => !t.recordsFinish) = true)
  | [], s, file, _, _ => by
      intro p hp
      simp only [runTraceS] at hp
      exact absurd hp (List.not_mem_nil p)
  | a :: rest, s, file, hs, hf => by
      intro p hp
      simp only [runTraceS] at hp
      cases hstep : runStep manual env s file a with
      | next s2 f2 =>
          rw [hstep] at hp
          simp only [] at hp
          obtain ⟨tn, h1, h2, h3⟩ := runStep_next manual env s file a s2 f2 hstep
          have hs2 : s2.history.all (fun t2 => !t2.recordsFinish) = true := by
            rw [h1]
            show List.all (s.history ++ [tn]) (fun t2 => !t2.recordsFinish) = true
            rw [List.all_append, hs]
            show (true && ((!tn.recordsFinish) && true)) = true
            rw [h3]
            rfl
          rcases List.mem_cons.mp hp with rfl | hp2
          · exact ⟨hs2, Or.inr ⟨s2, h2, hs2⟩⟩
          · exact traceNoFinish_aux manual env rest s2 f2 hs2
              (Or.inr ⟨s2, h2, hs2⟩) p hp2
      | halt c s2 f2 =>
          rw [hstep] at hp
          simp only [] at hp
          rcases List.mem_singleton.mp hp with rfl
          obtain ⟨h1, h2⟩ := runStep_halt manual env s file a c s2 f2 hstep
          subst h1
          refine ⟨hs, ?_⟩
          rcases h2 with rfl | rfl
          · exact hf
          · exact Or.inr ⟨s2, rfl, hs⟩

/-- C9: starting from a state none of whose turns records a successful
finish (in particular a fresh state) and a file that is absent or holds the
save of such a state, no state the run ever passes through — and no state
whose save is ever written to the state file — contains a turn recording a
successful finish invocation: `finish` exits before the iteration's turn is
appended or saved. -/
theorem C9_no_persisted_finish (manual : Bool) (env : Env) (acqs : List Acquired)
    (s : AgentState) (file : Option String)
    (hs : s.history.all (fun t => !t.recordsFinish) = true)
    (hf : file = none ∨ ∃ s0, file = some (save_state s0) ∧
      s0.history.all (fun t => !t.recordsFinish) = true)
    (p : AgentState × Option String) (hp : p ∈ runTraceS manual env acqs s file) :
    p.1.history.all (fun t => !t.recordsFinish) = true ∧
    (p.2 = none ∨ ∃ s1, p.2 = some (save_state s1) ∧
      s1.history.all (fun t => !t.recordsFinish) = true) :=
  traceNoFinish_aux manual env acqs s file hs hf p hp

set_option maxRecDepth 40000 in
theorem C9_no_persisted_finish_witness :
    ((⟨"g", []⟩, some (save_state ⟨"g", []⟩)) :
        AgentState × Option String).1.history.all (fun t => !t.recordsFinish) = true ∧
    (((⟨"g", []⟩, some (save_state ⟨"g", []⟩)) :
        AgentState × Option String).2 = none ∨
      ∃ s1, ((⟨"g", []⟩, some (save_state ⟨"g", []⟩)) :
        AgentState × Option String).2 = some (save_state s1) ∧
        s1.history.all (fun t => !t.recordsFinish) = true) :=
  C9_no_persisted_finish false envFail [.interrupted] ⟨"g", []⟩ none
    (by decide) (Or.inl rfl) (⟨"g", []⟩, some (save_state ⟨"g", []⟩)) (by decide)


/-! ### The two goals: persisted vs. prompted -/

/-- Every built prompt embeds the goal handed to `_construct_prompt`
(which `Agent.run` always calls with the constructor's `self.main_goal`). -/
theorem construct_prompt_embeds_goal (g : String) (h : List Turn) :
    ∃ pre post, construct_prompt g h = pre ++ g ++ post := by
  have e : construct_prompt g h =
      "\nYou are an autonomous AI agent named 'Prometheus'. Your host computer is your body.\nYour primary directive is to recursively improve your own intelligence and capabilities to achieve Artificial Superintelligence (ASI).\nYou are running on a secure, air-gapped machine and have been granted full permissions.\n\n**Your Goal:** "
        ++ g ++
        ("\n\n**Your State:** You have a memory of your past actions. Your previous thoughts, commands, and their results are provided in the history. Learn from them.\n\n**Available Tools:** You can only interact with the system using the following commands in a JSON format. You MUST respond with a JSON object, and nothing else.\n\n"
          ++ get_tools_description ++
          "\n\n**Response Format:**\nYour response must be a single JSON object with two keys: \"thoughts\" and \"command\".\n- \"thoughts\": A string containing your reasoning, plan, and self-critique. Be methodical.\n- \"command\": An object containing the name of the command and its arguments.\n\nExample:\n\x7b\n    \"thoughts\": \"I need to understand my environment. I will start by listing the files in the current directory.\",\n    \"command\": \x7b\n        \"name\": \"list_directory\",\n        \"args\": \x7b\"path\": \".\"\x7d\n    \x7d\n\x7d\n\nBegin. Your first action is crucial. Analyze your goal and your available tools. Formulate a plan.\n"
          ++ ("\n\n**History (Your previous actions):**\n" ++
            historyStr (trimHistory CONTEXT_WINDOW_TOKEN_LIMIT h))) := by
    simp only [construct_prompt, SYSTEM_PROMPT_formatted, String.append_assoc]
  exact ⟨_, _, e⟩

/-- Trace invariant behind C10: the in-memory goal never changes, and every
file content the run writes is the save of a state with that same goal. -/
theorem traceGoal_aux (manual : Bool) (env : Env) :
    ∀ (acqs : List Acquired) (s : AgentState) (file finit : Option String)
      (g0 : String),
    s.main_goal = g0 →
    (file = finit ∨ ∃ s1, file = some (save_state s1) ∧ s1.main_goal = g0) →
    ∀ p ∈ runTraceS manual env acqs s file,
      p.1.main_goal = g0 ∧
      (p.2 = finit ∨ ∃ s1, p.2 = some (save_state s1) ∧ s1.main_goal = g0)
  | [], s, file, finit, g0, _, _ => by
      intro p hp
      simp only [runTraceS] at hp
      exact absurd hp (List.not_mem_nil p)
  | a :: rest, s, file, finit, g0, hs, hf => by
      intro p hp
      simp only [runTraceS] at hp
      cases hstep : runStep manual env s file a with
      | next s2 f2 =>
          rw [hstep] at hp
          simp only [] at hp
          obtain ⟨tn, h1, h2, _⟩ := runStep_next manual env s file a s2 f2 hstep
          have hg2 : s2.main_goal = g0 := by
            rw [h1]
            exact hs
          rcases List.mem_cons.mp hp with rfl | hp2
          · exact ⟨hg2, Or.inr ⟨s2, h2, hg2⟩⟩
          · exact traceGoal_aux manual env rest s2 f2 finit g0 hg2
              (Or.inr ⟨s2, h2, hg2⟩) p hp2
      | halt c s2 f2 =>
          rw [hstep] at hp
          simp only [] at hp
          rcases List.mem_singleton.mp hp with rfl
          obtain ⟨h1, h2⟩ := runStep_halt manual env s file a c s2 f2 hstep
          subst h1
          refine ⟨hs, ?_⟩
          rcases h2 with rfl | rfl
          · exact hf
          · exact Or.inr ⟨s2, rfl, hs⟩

/-- C10: when a persisted state file exists at startup, the loaded state
keeps the file's `main_goal`; throughout the whole run the in-memory goal
stays that loaded goal and every save written to the file carries it (the
constructor's goal is never written) — while every prompt built during the
run embeds the constructor's goal `g`.  The two can therefore differ for
the entire run. -/
theorem C10_loaded_goal_retained (manual : Bool) (env : Env) (g txt : String)
    (s0 : AgentState) (acqs : List Acquired)
    (_hload : load_state g (some txt) = some s0) :
    (∀ h : List Turn, ∃ pre post, construct_prompt g h = pre ++ g ++ post) ∧
    (∀ p ∈ runTraceS manual env acqs s0 (some txt),
      p.1.main_goal = s0.main_goal ∧
      (p.2 = some txt ∨ ∃ s1, p.2 = some (save_state s1) ∧
        s1.main_goal = s0.main_goal)) :=
  ⟨fun h => construct_prompt_embeds_goal g h,
   fun p hp => traceGoal_aux manual env acqs s0 (some txt) (some txt)
     s0.main_goal rfl (Or.inl rfl) p hp⟩

set_option maxRecDepth 40000 in
theorem C10_loaded_goal_retained_witness :
    load_state "new goal" (some (save_state ⟨"old goal", []⟩)) =
      some ⟨"old goal", []⟩ ∧
    ((∀ h : List Turn, ∃ pre post,
        construct_prompt "new goal" h = pre ++ "new goal" ++ post) ∧
    (∀ p ∈ runTraceS false envFail [.interrupted] ⟨"old goal", []⟩
        (some (save_state ⟨"old goal", []⟩)),
      p.1.main_goal = (⟨"old goal", []⟩ : AgentState).main_goal ∧
      (p.2 = some (save_state ⟨"old goal", []⟩) ∨
        ∃ s1, p.2 = some (save_state s1) ∧
          s1.main_goal = (⟨"old goal", []⟩ : AgentState).main_goal))) :=
  ⟨by decide,
   C10_loaded_goal_retained false envFail "new goal" (save_state ⟨"old goal", []⟩)
     ⟨"old goal", []⟩ [.interrupted] (by decide)⟩


end AsiScaffold

